import Mathlib

/-!
Shallow embedding of the rosemary-memory memory core (graph store, retrieval
engine, insight consolidation pipeline) and proofs of its specified properties.

Translated sources:
  * `rosemary_memory/memory/store.py` (GraphStore and query helpers)
  * `rosemary_memory/memory/retrieval/retrieve.py` (scoring, grouping, format)
  * `rosemary_memory/memory/embeddings.py` (cosine similarity)
  * `rosemary_memory/memory/insights.py` (consolidation batch loop)

Conventions: Python floats are modelled as rationals (scores, embeddings) or
reals (cosine with its square roots); Python exceptions are modelled with
`Except String`; fresh UUIDs and timestamps are passed as explicit arguments;
property maps returned to callers are association lists `List (String × Value)`
so that the presence or absence of a key (for example `embedding`) is
observable, exactly as for a Python dict.
-/

namespace Rosemary

/-- Substring test on character lists: `needle.isPrefixOf` of some suffix.
Models the Python `needle in hay` containment test. -/
def charsContain (hay needle : List Char) : Bool :=
  match hay with
  | [] => needle.isEmpty
  | _ :: rest => needle.isPrefixOf hay || charsContain rest needle

/-- Python `needle in hay` on strings (substring containment). -/
def strContains (hay needle : String) : Bool :=
  charsContain hay.data needle.data

/-- Python `str.lower()`: lowercase every character. -/
def pyLower (s : String) : String :=
  String.mk (s.data.map Char.toLower)

/-- Python `str.strip()`: drop leading and trailing whitespace. -/
def pyStrip (s : String) : String :=
  String.mk
    (((s.data.dropWhile Char.isWhitespace).reverse.dropWhile
      Char.isWhitespace).reverse)

/-! ## Query executor retry loop

`GraphStore._execute_cypher_with_retry` (store.py lines 25-36): three guarded
attempts; a failure whose message mentions `DuplicateTableError` or
`Entity failed to be updated` sleeps `0.1 * (attempt + 1)` seconds and retries,
any other failure is re-raised; after the loop one final unguarded attempt runs.
The backend is modelled as a map from call index to outcome; the model returns
the final outcome, the number of backend calls made, and the list of sleep
durations (in milliseconds) in order. -/

/-- Message test from store.py line 32 deciding whether a failure is a benign
concurrent-schema race worth retrying. -/
def isBenignRaceMessage (message : String) : Bool :=
  strContains message "DuplicateTableError" ||
    strContains message "Entity failed to be updated"

/-- Guarded retry loop of `_execute_cypher_with_retry`: `fuel` guarded attempts
remain, `attempt` is the index of the next call, `sleeps` accumulates backoff
sleeps in milliseconds. When the guarded attempts are exhausted a final
unguarded call is made (store.py line 36). Returns (outcome, calls made,
sleeps). -/
def retryGo {α : Type} (backend : Nat → Except String α) :
    Nat → Nat → List Nat → Except String α × Nat × List Nat
  | 0, attempt, sleeps => (backend attempt, attempt + 1, sleeps)
  | fuel + 1, attempt, sleeps =>
    match backend attempt with
    | Except.ok v => (Except.ok v, attempt + 1, sleeps)
    | Except.error m =>
      if isBenignRaceMessage m then
        retryGo backend fuel (attempt + 1) (sleeps ++ [100 * (attempt + 1)])
      else
        (Except.error m, attempt + 1, sleeps)

/-- `GraphStore._execute_cypher_with_retry`: up to 3 guarded attempts, then a
final unguarded one. -/
def executeCypherWithRetry {α : Type} (backend : Nat → Except String α) :
    Except String α × Nat × List Nat :=
  retryGo backend 3 0 []

/-! ## Query term expansion (`_expand_query_terms`, store.py lines 467-491) -/

/-- Inner fold of the de-duplication loop at store.py lines 480-490: `seen`
holds the lowercase keys already emitted, `out` the emitted terms. -/
def dedupFold (acc : List String × List String) (term : String) :
    List String × List String :=
  let t := pyStrip term
  if t = "" then acc
  else if pyLower t ∈ acc.1 then acc
  else (acc.1 ++ [pyLower t], acc.2 ++ [t])

/-- De-duplication preserving order, keyed on the lowercased trimmed term
(store.py lines 479-491). -/
def dedupCaseInsensitive (terms : List String) : List String :=
  (terms.foldl dedupFold ([], [])).2

/-- Synonym families from store.py lines 473-478. -/
def foodFamily : List String :=
  ["food", "eat", "restaurant", "cafe", "dinner", "lunch", "breakfast"]

def shopFamily : List String :=
  ["shop", "shopping", "fashion", "boutique", "clothes", "style"]

def travelFamily : List String :=
  ["travel", "trip", "visit", "vacation", "tour", "hotel"]

/-- Trigger test for the food family (store.py line 473). -/
def foodTrigger (lowered : String) : Bool :=
  strContains lowered "food" || strContains lowered "eat" ||
    strContains lowered "restaurant"

/-- Trigger test for the shopping family (store.py line 475). -/
def shopTrigger (lowered : String) : Bool :=
  strContains lowered "shop" || strContains lowered "shopping" ||
    strContains lowered "fashion"

/-- Trigger test for the travel family (store.py line 477). -/
def travelTrigger (lowered : String) : Bool :=
  strContains lowered "travel" || strContains lowered "trip" ||
    strContains lowered "visit"

/-- The raw expanded term list before de-duplication (store.py lines 471-478). -/
def rawQueryTerms (queryText : String) : List String :=
  let base := pyStrip queryText
  let lowered := pyLower base
  [base]
    ++ (if foodTrigger lowered then foodFamily else [])
    ++ (if shopTrigger lowered then shopFamily else [])
    ++ (if travelTrigger lowered then travelFamily else [])

/-- `_expand_query_terms` (store.py lines 467-491). -/
def expandQueryTerms (queryText : String) : List String :=
  let base := pyStrip queryText
  if base = "" then []
  else dedupCaseInsensitive (rawQueryTerms queryText)

/-! ## Cosine similarity (`cosine_similarity`, embeddings.py lines 60-68)

The numpy float computation is modelled over the reals; input vectors are
rational (as exact float values are). -/

/-- Sum of squares of a vector, the square of `np.linalg.norm`. -/
def sumSq (v : List ℚ) : ℚ :=
  (v.map (fun x => x * x)).sum

/-- Dot product `np.dot` (on equal-length vectors, which is how the code calls
it). -/
def dotProd (a b : List ℚ) : ℚ :=
  (List.zipWith (fun x y => x * y) a b).sum

/-- `cosine_similarity` (embeddings.py lines 60-68): returns 0.0 on an empty
vector, returns 0.0 when the product of the norms is zero, otherwise the
normalized dot product. -/
noncomputable def cosine_similarity (a b : List ℚ) : ℝ :=
  if a.length = 0 ∨ b.length = 0 then 0
  else if Real.sqrt ((sumSq a : ℚ) : ℝ) * Real.sqrt ((sumSq b : ℚ) : ℝ) = 0 then 0
  else ((dotProd a b : ℚ) : ℝ)
    / (Real.sqrt ((sumSq a : ℚ) : ℝ) * Real.sqrt ((sumSq b : ℚ) : ℝ))

/-! ## Graph state

Typed model of the property graph the store maintains. Node kinds carry
exactly the properties the code writes; `Option` marks properties a creation
path may leave absent (Cypher drops null-valued properties, and `SET p = null`
removes `p`). Records handed back to callers are association lists
`List (String × Value)` so key presence is observable. -/

/-- Property values as stored in the graph / returned in records. -/
inductive Value where
  | str (s : String)
  | bool (b : Bool)
  | vec (v : List ℚ)
  | null
deriving DecidableEq, Repr

/-- Python truthiness of a decoded agtype value, used by `x or y` fallbacks. -/
def Value.truthy : Value → Bool
  | .str s => !(s == "")
  | .bool b => b
  | .vec v => !v.isEmpty
  | .null => false

/-- Dictionary lookup on a property record (first binding wins, as for a dict
built left to right). -/
def lookupProp (ps : List (String × Value)) (k : String) : Option Value :=
  (ps.find? (fun kv => kv.1 == k)).map Prod.snd

/-- Python `dict.pop(k, None)`: drop the binding for `k`. -/
def popKey (ps : List (String × Value)) (k : String) : List (String × Value) :=
  ps.filter (fun kv => !(kv.1 == k))

/-- A `Domain` node (merge-on-label; `id`/`created_at` are set by every write
path, so they are always present). -/
structure DomainNode where
  id : String
  label : String
  created_at : String
deriving DecidableEq, Repr

/-- A `Topic` node (merge-on-text; embedding optional). -/
structure TopicNode where
  id : String
  text : String
  created_at : String
  embedding : Option (List ℚ) := none
deriving DecidableEq, Repr

/-- A `Detail` node. `create_detail` sets `insight_pending`;
`insert_cluster_summary_detail` leaves it (and `embedding`) absent. -/
structure DetailNode where
  id : String
  text : String
  source : String
  created_at : String
  embedding : Option (List ℚ) := none
  insight_pending : Option Bool := none
  insight_processed_at : Option String := none
deriving DecidableEq, Repr

/-- An `Insight` node. -/
structure InsightNode where
  id : String
  text : String
  created_at : String
  embedding : Option (List ℚ) := none
deriving DecidableEq, Repr

/-- A `Cluster` node (the legacy label used by
`insert_cluster_summary_detail`). -/
structure ClusterNode where
  id : String
  label : String
  created_at : String
deriving DecidableEq, Repr

/-- A `Summary` node (the legacy label used by
`insert_cluster_summary_detail`). -/
structure SummaryNode where
  id : String
  text : String
  created_at : String
deriving DecidableEq, Repr

/-- The whole graph: node lists per label plus the directed edge relations,
each edge a pair of endpoint node ids. -/
structure GraphState where
  domains : List DomainNode := []
  topics : List TopicNode := []
  details : List DetailNode := []
  insights : List InsightNode := []
  clusters : List ClusterNode := []
  summaries : List SummaryNode := []
  hasTopic : List (String × String) := []
  hasDetail : List (String × String) := []
  hasInsight : List (String × String) := []
  supportsDetail : List (String × String) := []
  clusterSummary : List (String × String) := []
  summaryDetail : List (String × String) := []
deriving DecidableEq, Repr

/-- Optional vector property rendered into a record (absent when unset). -/
def optVecProp (k : String) : Option (List ℚ) → List (String × Value)
  | some v => [(k, Value.vec v)]
  | none => []

/-- Optional boolean property rendered into a record. -/
def optBoolProp (k : String) : Option Bool → List (String × Value)
  | some b => [(k, Value.bool b)]
  | none => []

/-- Optional string property rendered into a record. -/
def optStrProp (k : String) : Option String → List (String × Value)
  | some s => [(k, Value.str s)]
  | none => []

/-- Cypher `properties(c)` for a Domain node. -/
def DomainNode.props (c : DomainNode) : List (String × Value) :=
  [("id", Value.str c.id), ("label", Value.str c.label),
    ("created_at", Value.str c.created_at)]

/-- Cypher `properties(t)` for a Topic node. -/
def TopicNode.props (t : TopicNode) : List (String × Value) :=
  [("id", Value.str t.id), ("text", Value.str t.text),
    ("created_at", Value.str t.created_at)] ++ optVecProp "embedding" t.embedding

/-- Cypher `properties(d)` for a Detail node. -/
def DetailNode.props (d : DetailNode) : List (String × Value) :=
  [("id", Value.str d.id), ("text", Value.str d.text),
    ("source", Value.str d.source), ("created_at", Value.str d.created_at)]
    ++ optVecProp "embedding" d.embedding
    ++ optBoolProp "insight_pending" d.insight_pending
    ++ optStrProp "insight_processed_at" d.insight_processed_at

/-- Cypher `properties(i)` for an Insight node. -/
def InsightNode.props (i : InsightNode) : List (String × Value) :=
  [("id", Value.str i.id), ("text", Value.str i.text),
    ("created_at", Value.str i.created_at)] ++ optVecProp "embedding" i.embedding

/-! ## Graph store operations (store.py)

Fresh UUIDs (`_new_id()`) and timestamps (`_utc_now()`) are explicit
arguments. Each operation returns the updated state and, where the code
returns data, the decoded record. -/

/-- `MERGE` of a relationship: add the edge unless it is already present. -/
def mergeEdge (edges : List (String × String)) (e : String × String) :
    List (String × String) :=
  if e ∈ edges then edges else edges ++ [e]

/-- `GraphStore.create_detail` (store.py lines 125-153): plain create with
`insight_pending = true`; the returned record has `embedding` popped. -/
def createDetail (s : GraphState) (newId createdAt text source : String)
    (embedding : Option (List ℚ)) : GraphState × List (String × Value) :=
  let d : DetailNode :=
    { id := newId, text := text, source := source, created_at := createdAt,
      embedding := embedding, insight_pending := some true }
  ({ s with details := s.details ++ [d] }, popKey d.props "embedding")

/-- `GraphStore.create_summary` (store.py lines 206-234): `MERGE` the Topic on
exact text; `id`/`created_at`/`embedding` are set only if absent; returned
record has `embedding` popped. -/
def createSummary (s : GraphState) (newId createdAt text : String)
    (embedding : Option (List ℚ)) : GraphState × List (String × Value) :=
  match s.topics.find? (fun t => t.text == text) with
  | some t =>
    let t' : TopicNode :=
      { t with embedding := t.embedding.orElse (fun _ => embedding) }
    ({ s with topics := s.topics.map (fun u =>
        if u.text == text then
          { u with embedding := u.embedding.orElse (fun _ => embedding) }
        else u) },
      popKey t'.props "embedding")
  | none =>
    let t : TopicNode :=
      { id := newId, text := text, created_at := createdAt,
        embedding := embedding }
    ({ s with topics := s.topics ++ [t] }, popKey t.props "embedding")

/-- `GraphStore.create_insight` (store.py lines 236-261): plain create; the
returned record has `embedding` popped. -/
def createInsight (s : GraphState) (newId createdAt text : String)
    (embedding : Option (List ℚ)) : GraphState × List (String × Value) :=
  let i : InsightNode :=
    { id := newId, text := text, created_at := createdAt,
      embedding := embedding }
  ({ s with insights := s.insights ++ [i] }, popKey i.props "embedding")

/-- `GraphStore.create_domain` (store.py lines 185-204): `MERGE` the Domain on
label; `coalesce` keeps the existing `id`/`created_at`. Returns the merged
node's properties. -/
def createDomain (s : GraphState) (newId createdAt label : String) :
    GraphState × List (String × Value) :=
  match s.domains.find? (fun c => c.label == label) with
  | some c => (s, c.props)
  | none =>
    let c : DomainNode := { id := newId, label := label, created_at := createdAt }
    ({ s with domains := s.domains ++ [c] }, c.props)

/-- `GraphStore.insert_cluster_summary_detail` (store.py lines 88-123): merge
the Cluster on label, create a fresh Summary and Detail (the Detail without
`insight_pending` or `embedding`), and link them. Returns the three nodes. -/
def insertClusterSummaryDetail (s : GraphState)
    (clusterLabel summaryText detailText source : String)
    (clusterId summaryId detailId createdAt : String) :
    GraphState × ClusterNode × SummaryNode × DetailNode :=
  let merged : List ClusterNode × ClusterNode :=
    match s.clusters.find? (fun c => c.label == clusterLabel) with
    | some c => (s.clusters, c)
    | none =>
      let c : ClusterNode :=
        { id := clusterId, label := clusterLabel, created_at := createdAt }
      (s.clusters ++ [c], c)
  let sm : SummaryNode :=
    { id := summaryId, text := summaryText, created_at := createdAt }
  let d : DetailNode :=
    { id := detailId, text := detailText, source := source,
      created_at := createdAt }
  ({ s with
      clusters := merged.1
      summaries := s.summaries ++ [sm]
      details := s.details ++ [d]
      clusterSummary := s.clusterSummary ++ [(merged.2.id, sm.id)]
      summaryDetail := s.summaryDetail ++ [(sm.id, d.id)] },
    merged.2, sm, d)

/-- `GraphStore.link_detail_to_summary` (store.py lines 263-272): if both
endpoints match, `MERGE` the `HAS_DETAIL` edge. -/
def linkDetailToSummary (s : GraphState) (detailId summaryId : String) :
    GraphState :=
  if s.details.any (fun d => d.id == detailId)
      && s.topics.any (fun t => t.id == summaryId) then
    { s with hasDetail := mergeEdge s.hasDetail (summaryId, detailId) }
  else s

/-- `GraphStore.link_detail_to_insight` (store.py lines 274-283). -/
def linkDetailToInsight (s : GraphState) (detailId insightId : String) :
    GraphState :=
  if s.details.any (fun d => d.id == detailId)
      && s.insights.any (fun i => i.id == insightId) then
    { s with supportsDetail := mergeEdge s.supportsDetail (insightId, detailId) }
  else s

/-- `GraphStore.link_insight_to_topic` (store.py lines 285-294). -/
def linkInsightToTopic (s : GraphState) (insightId topicId : String) :
    GraphState :=
  if s.insights.any (fun i => i.id == insightId)
      && s.topics.any (fun t => t.id == topicId) then
    { s with hasInsight := mergeEdge s.hasInsight (topicId, insightId) }
  else s

/-- `GraphStore.link_summary_to_cluster` (store.py lines 312-329): if the
Topic matches, merge the Domain on label and the `HAS_TOPIC` edge. -/
def linkSummaryToCluster (s : GraphState)
    (summaryId clusterLabel clusterId createdAt : String) : GraphState :=
  if s.topics.any (fun t => t.id == summaryId) then
    let merged : List DomainNode × DomainNode :=
      match s.domains.find? (fun c => c.label == clusterLabel) with
      | some c => (s.domains, c)
      | none =>
        let c : DomainNode :=
          { id := clusterId, label := clusterLabel, created_at := createdAt }
        (s.domains ++ [c], c)
    { s with
        domains := merged.1
        hasTopic := mergeEdge s.hasTopic (merged.2.id, summaryId) }
  else s

/-- The per-node update of `mark_detail_insight_processed`: set
`insight_pending = false` and stamp `insight_processed_at` when the id
matches. -/
def markFn (detailId processedAt : String) (d : DetailNode) : DetailNode :=
  if d.id == detailId then
    { d with
        insight_pending := some false
        insight_processed_at := some processedAt }
  else d

/-- `GraphStore.mark_detail_insight_processed` (store.py lines 347-355): every
Detail whose id matches gets `insight_pending = false` and a processed-at
stamp. -/
def markDetailInsightProcessed (s : GraphState) (detailId processedAt : String) :
    GraphState :=
  { s with details := s.details.map (markFn detailId processedAt) }

/-- `GraphStore.update_insight_text` (store.py lines 420-427). -/
def updateInsightText (s : GraphState) (insightId newText : String) :
    GraphState :=
  { s with insights := s.insights.map (fun i =>
      if i.id == insightId then { i with text := newText } else i) }

/-- `GraphStore.update_topic_text` (store.py lines 428-435). -/
def updateTopicText (s : GraphState) (topicId newText : String) : GraphState :=
  { s with topics := s.topics.map (fun t =>
      if t.id == topicId then { t with text := newText } else t) }

/-- A row of `list_pending_details` (store.py lines 331-345). -/
structure PendingRow where
  id : String
  text : String
deriving DecidableEq, Repr

/-- `GraphStore.list_pending_details` (store.py lines 331-345): Details with
`coalesce(insight_pending, true) = true`, up to `limit`. -/
def listPendingDetails (s : GraphState) (limit : Nat) : List PendingRow :=
  ((s.details.filter (fun d => d.insight_pending.getD true)).take limit).map
    (fun d => { id := d.id, text := d.text })

/-- `GraphStore.resolve_detail_id` (store.py lines 296-310): first Detail whose
id or exact text equals the reference. -/
def resolveDetailId (s : GraphState) (ref : String) : Option String :=
  (s.details.find? (fun d => d.id == ref || d.text == ref)).map (fun d => d.id)

/-- `GraphStore.list_insights_for_topic` (store.py lines 406-418). -/
def listInsightsForTopic (s : GraphState) (topicId : String) :
    List (List (String × Value)) :=
  if s.topics.any (fun t => t.id == topicId) then
    ((s.hasInsight.filter (fun e => e.1 == topicId)).filterMap
        (fun e => s.insights.find? (fun i => i.id == e.2))).map
      (fun i => [("id", Value.str i.id), ("text", Value.str i.text)])
  else []

/-- Result of `GraphStore.get_detail_context` (store.py lines 357-387). -/
structure DetailContext where
  detail : List (String × Value)
  topics : List (List (String × Value))
  domains : List (List (String × Value))
deriving DecidableEq, Repr

/-- `GraphStore.get_detail_context` (store.py lines 357-387): the detail, its
linked topics and their domains, with `embedding` popped from every record
(lines 374-386); `none` models the empty dict on a miss. -/
def getDetailContext (s : GraphState) (detailId : String) :
    Option DetailContext :=
  match s.details.find? (fun d => d.id == detailId) with
  | none => none
  | some d =>
    let tops := s.topics.filter (fun t => (t.id, d.id) ∈ s.hasDetail)
    let doms := s.domains.filter (fun c =>
      s.topics.any (fun t =>
        decide ((c.id, t.id) ∈ s.hasTopic) && decide ((t.id, d.id) ∈ s.hasDetail)))
    some
      { detail := popKey d.props "embedding"
        topics := tops.map (fun t => popKey t.props "embedding")
        domains := doms.map (fun c => popKey c.props "embedding") }

/-! ## Lexical retrieval (`GraphStore.retrieve`, store.py lines 436-464) -/

/-- A raw row of `GraphStore.retrieve`: full `properties(...)` of the domain
and topic, and of the optionally matched detail (`none` for the Cypher null
row). Embeddings are not stripped here. -/
structure RetrieveRow where
  cluster : List (String × Value)
  summary : List (String × Value)
  detail : Option (List (String × Value))
deriving DecidableEq, Repr

/-- One disjunct of the WHERE clause (store.py lines 443-447): case-insensitive
substring match of a term against domain label, topic text, or detail text
(null detail contributes nothing). -/
def rowMatchesTerm (c : DomainNode) (t : TopicNode) (d : Option DetailNode)
    (term : String) : Bool :=
  strContains (pyLower c.label) (pyLower term)
    || strContains (pyLower t.text) (pyLower term)
    || (match d with
        | some dn => strContains (pyLower dn.text) (pyLower term)
        | none => false)

/-- The full WHERE clause: the per-term disjuncts OR-combined, `true` when the
term list is empty (store.py line 448). -/
def rowMatches (terms : List String) (c : DomainNode) (t : TopicNode)
    (d : Option DetailNode) : Bool :=
  if terms.isEmpty then true else terms.any (rowMatchesTerm c t d)

/-- The rows produced by `OPTIONAL MATCH (t)-[:HAS_DETAIL]->(d:Detail)` for a
topic: its linked details, or a single null row when it has none. -/
def optionalDetails (s : GraphState) (t : TopicNode) : List (Option DetailNode) :=
  let ds := (s.hasDetail.filter (fun e => e.1 == t.id)).filterMap
    (fun e => s.details.find? (fun d => d.id == e.2))
  if ds.isEmpty then [none] else ds.map some

/-- `GraphStore.retrieve` (store.py lines 436-464): expand the query, traverse
`Domain -[HAS_TOPIC]-> Topic` with optional details, keep the rows whose
domain/topic/detail text matches some term, and return full property maps.
(The `top_k` argument of the Python method is unused there, so it has no
counterpart here.) -/
def storeRetrieve (s : GraphState) (queryText : String) : List RetrieveRow :=
  let terms := expandQueryTerms queryText
  s.hasTopic.foldl (fun acc e =>
    match s.domains.find? (fun c => c.id == e.1),
        s.topics.find? (fun t => t.id == e.2) with
    | some c, some t =>
      acc ++ ((optionalDetails s t).filter (rowMatches terms c t)).map
        (fun d =>
          { cluster := c.props
            summary := t.props
            detail := d.map (fun dn => dn.props) })
    | _, _ => acc) []

/-! ## Retrieval rerank (`retrieve_memory`, retrieve.py lines 81-127) -/

/-- A grouped candidate record as built by the normalization loop at
retrieve.py lines 92-107 (and consumed by scoring and formatting). -/
structure MemoryItem where
  cluster : List (String × Value)
  summary : List (String × Value)
  details : List (List (String × Value))
  insights : List (List (String × Value)) := []
deriving DecidableEq, Repr

/-- Value rendered with Python `str(...)`, as the grouping keys are. -/
def valueKeyString : Value → String
  | .str s => s
  | .bool b => if b then "True" else "False"
  | .vec _ => "list"
  | .null => "None"

/-- Python `x or y` on an optional looked-up value: keep it only if truthy. -/
def truthyOpt : Option Value → Option Value
  | some v => if v.truthy then some v else none
  | none => none

/-- The grouping key `(cluster id or label or "cluster", summary id or text or
"topic")` of retrieve.py lines 100-102. -/
def groupKeyOf (cluster summary : List (String × Value)) : String × String :=
  let ck := ((truthyOpt (lookupProp cluster "id")).orElse
    (fun _ => truthyOpt (lookupProp cluster "label"))).getD (Value.str "cluster")
  let sk := ((truthyOpt (lookupProp summary "id")).orElse
    (fun _ => truthyOpt (lookupProp summary "text"))).getD (Value.str "topic")
  (valueKeyString ck, valueKeyString sk)

/-- One step of the grouping loop (retrieve.py lines 94-106): ensure the key's
record exists, then append the detail when it is a non-empty dict. -/
def groupRowsFold (acc : List ((String × String) × MemoryItem))
    (row : RetrieveRow) : List ((String × String) × MemoryItem) :=
  let key := groupKeyOf row.cluster row.summary
  let acc' := if acc.any (fun kv => kv.1 == key) then acc
    else acc ++ [(key,
      { cluster := row.cluster
        summary := row.summary
        details := [] })]
  match row.detail with
  | some ps =>
    if ps.isEmpty then acc'
    else acc'.map (fun kv =>
      if kv.1 == key then
        (kv.1, { kv.2 with details := kv.2.details ++ [ps] })
      else kv)
  | none => acc'

/-- The grouping normalization of retrieve.py lines 92-107. -/
def groupRows (rows : List RetrieveRow) : List MemoryItem :=
  (rows.foldl groupRowsFold []).map (fun kv => kv.2)

/-- `_score_item` (retrieve.py lines 9-24), parametric in the cosine kernel:
best of 0, the topic embedding's similarity, and each detail embedding's
similarity. -/
def scoreItem (cos : List ℚ → List ℚ → ℚ) (queryVec : List ℚ)
    (item : MemoryItem) : ℚ :=
  let best : ℚ := 0
  let best := match lookupProp item.summary "embedding" with
    | some (Value.vec v) => max best (cos queryVec v)
    | _ => best
  item.details.foldl (fun b ps =>
    match lookupProp ps "embedding" with
    | some (Value.vec v) => max b (cos queryVec v)
    | _ => b) best

/-- Descending-score order used by `scored.sort(key=lambda x: x[1],
reverse=True)`. -/
def scoreGE (a b : MemoryItem × ℚ) : Prop := b.2 ≤ a.2

instance : DecidableRel scoreGE := fun a b => inferInstanceAs (Decidable (b.2 ≤ a.2))

instance : IsTrans (MemoryItem × ℚ) scoreGE := ⟨fun _ _ _ hab hbc => le_trans hbc hab⟩

instance : IsTotal (MemoryItem × ℚ) scoreGE := ⟨fun a b => le_total b.2 a.2⟩

/-- The default retrieval threshold `min_score = 0.35` written as the reduced
fraction 7/20 in numerator/denominator form (kernel-evaluable). -/
def defaultMinScore : ℚ := ⟨7, 20, by decide, by decide⟩

/-- The threshold/sort/truncate stage of `retrieve_memory` (retrieve.py lines
109-115): score every candidate, drop those under `minScore`, stable-sort by
score descending, take the first `topK`. -/
def rankCandidates (cos : List ℚ → List ℚ → ℚ) (queryVec : List ℚ)
    (minScore : ℚ) (topK : Nat) (candidates : List MemoryItem) :
    List MemoryItem :=
  let scored := candidates.map (fun item => (item, scoreItem cos queryVec item))
  let survivors := scored.filter (fun p => decide (minScore ≤ p.2))
  let sorted := survivors.insertionSort scoreGE
  ((sorted.take topK).map Prod.fst)

/-- The insight-attachment loop of retrieve.py lines 117-126. -/
def attachInsights (s : GraphState) (item : MemoryItem) : MemoryItem :=
  match truthyOpt (lookupProp item.summary "id") with
  | none => { item with insights := [] }
  | some v => { item with insights := listInsightsForTopic s (valueKeyString v) }

/-- `retrieve_memory` (retrieve.py lines 81-127), parametric in the cosine
kernel and the embedding provider: lexical candidates, grouping, embedding
rerank, insight attachment. -/
def retrieveMemory (cos : List ℚ → List ℚ → ℚ) (embed : String → List ℚ)
    (s : GraphState) (query : String) (topK : Nat) (minScore : ℚ) :
    List MemoryItem :=
  let candidates := storeRetrieve s query
  if candidates.isEmpty then []
  else
    (rankCandidates cos (embed query) minScore topK (groupRows candidates)).map
      (attachInsights s)

/-! ## Result formatting (`format_results`, retrieve.py lines 27-78) -/

/-- The per-detail bucket of `format_results`: topics, domains, and insights
collected from every record sharing the detail text. Python uses sets; the
model keeps first-insertion-ordered duplicate-free lists (the output is sorted,
so only the underlying set matters) . -/
structure FormatBucket where
  topics : List String
  domains : List String
  insights : List String
deriving DecidableEq, Repr

/-- Set insertion: append unless already present. -/
def addOnce (xs : List String) (x : String) : List String :=
  if x ∈ xs then xs else xs ++ [x]

/-- Text rendered with `str(x.get("text","")).strip()` from a property map. -/
def textValueOf (ps : List (String × Value)) (k : String) : String :=
  pyStrip (match lookupProp ps k with
    | some (Value.str s) => s
    | _ => "")

/-- The trimmed domain label of a record (retrieve.py line 36). -/
def itemDomainText (item : MemoryItem) : String :=
  textValueOf item.cluster "label"

/-- The trimmed topic text of a record (retrieve.py line 37). -/
def itemTopicText (item : MemoryItem) : String :=
  textValueOf item.summary "text"

/-- The trimmed detail text of a detail map (retrieve.py line 49). -/
def detailTextOf (ps : List (String × Value)) : String :=
  textValueOf ps "text"

/-- Insight texts of a record: `str(...).strip()`, empties dropped
(retrieve.py lines 38-45). -/
def insightTexts (item : MemoryItem) : List String :=
  ((item.insights.map (fun ps => textValueOf ps "text")).filter
    (fun t => !(t == "")))

/-- The fresh bucket created by `setdefault` (retrieve.py lines 54-57). -/
def emptyBucket : FormatBucket :=
  { topics := [], domains := [], insights := [] }

/-- Adding one record's labels to a bucket (retrieve.py lines 58-63). -/
def bucketAdd (topic domain : String) (ins : List String) (b : FormatBucket) :
    FormatBucket :=
  { topics := if topic == "" then b.topics else addOnce b.topics topic
    domains := if domain == "" then b.domains else addOnce b.domains domain
    insights := ins.foldl addOnce b.insights }

/-- Processing one detail of one record (retrieve.py lines 47-63): skip empty
detail text, `setdefault` the bucket, add the record's labels. -/
def bucketUpdate (topic domain : String) (ins : List String)
    (acc : List (String × FormatBucket)) (ps : List (String × Value)) :
    List (String × FormatBucket) :=
  let detailText := detailTextOf ps
  if detailText == "" then acc
  else
    let acc' := if acc.any (fun kv => kv.1 == detailText) then acc
      else acc ++ [(detailText, emptyBucket)]
    acc'.map (fun kv =>
      if kv.1 == detailText then (kv.1, bucketAdd topic domain ins kv.2) else kv)

/-- Fold one record's details into the bucket map (retrieve.py lines 47-63). -/
def formatFoldItem (acc : List (String × FormatBucket)) (item : MemoryItem) :
    List (String × FormatBucket) :=
  item.details.foldl
    (bucketUpdate (itemTopicText item) (itemDomainText item) (insightTexts item))
    acc

/-- The `detail_map` of `format_results` (retrieve.py lines 28-63), keyed by
trimmed detail text in first-appearance order. -/
def formatBuckets (results : List MemoryItem) : List (String × FormatBucket) :=
  results.foldl formatFoldItem []

/-- String order used to model Python `sorted(...)` on strings. -/
def strLE (a b : String) : Prop := a ≤ b

instance : DecidableRel strLE := fun a b => inferInstanceAs (Decidable (a ≤ b))

instance : IsTrans String strLE := ⟨fun _ _ _ hab hbc => le_trans hab hbc⟩

instance : IsTotal String strLE := ⟨fun a b => le_total a b⟩

/-- Well-formedness of the bucket map: distinct keys, duplicate-free label
lists (what the Python dict of sets maintains by construction). -/
def BucketsWF (acc : List (String × FormatBucket)) : Prop :=
  (acc.map Prod.fst).Nodup
    ∧ ∀ kb ∈ acc, kb.2.topics.Nodup ∧ kb.2.domains.Nodup ∧ kb.2.insights.Nodup

/-- The rendered lines of one bucket (retrieve.py lines 69-76). -/
def bucketLines (idx : Nat) (detailText : String) (b : FormatBucket) :
    List String :=
  [toString idx ++ ". Detail: " ++ detailText]
    ++ (if b.topics.isEmpty then []
        else ["   Topics: " ++ String.intercalate ", " (b.topics.insertionSort strLE)])
    ++ (if b.domains.isEmpty then []
        else ["   Domains: " ++ String.intercalate ", " (b.domains.insertionSort strLE)])
    ++ (if b.insights.isEmpty then []
        else ["   Insights: " ++ String.intercalate ", " (b.insights.insertionSort strLE)])

/-- `format_results` (retrieve.py lines 27-78): numbered blocks, one per
distinct detail text, with sorted topic/domain/insight lists. -/
def format_results (results : List MemoryItem) : String :=
  let buckets := formatBuckets results
  if buckets.isEmpty then ""
  else
    pyStrip (String.intercalate "\n"
      (buckets.enum.flatMap (fun p => bucketLines (p.1 + 1) p.2.1 p.2.2)))

/-! ## Store operation algebra (for state-trajectory invariants) -/

/-- One Graph Store write, with its fresh ids and timestamps made explicit. -/
inductive StoreOp where
  | createDetail (newId createdAt text source : String)
      (embedding : Option (List ℚ))
  | insertClusterSummaryDetail
      (clusterLabel summaryText detailText source : String)
      (clusterId summaryId detailId createdAt : String)
  | createDomain (newId createdAt label : String)
  | createSummary (newId createdAt text : String) (embedding : Option (List ℚ))
  | createInsight (newId createdAt text : String) (embedding : Option (List ℚ))
  | linkDetailToSummary (detailId summaryId : String)
  | linkDetailToInsight (detailId insightId : String)
  | linkInsightToTopic (insightId topicId : String)
  | linkSummaryToCluster (summaryId clusterLabel clusterId createdAt : String)
  | markDetailInsightProcessed (detailId processedAt : String)
  | updateInsightText (insightId newText : String)
  | updateTopicText (topicId newText : String)
deriving DecidableEq, Repr

/-- State transition of one operation. -/
def applyOp (s : GraphState) : StoreOp → GraphState
  | .createDetail newId createdAt text source emb =>
    (createDetail s newId createdAt text source emb).1
  | .insertClusterSummaryDetail cl st dt src cid sid did ts =>
    (insertClusterSummaryDetail s cl st dt src cid sid did ts).1
  | .createDomain newId createdAt label => (createDomain s newId createdAt label).1
  | .createSummary newId createdAt text emb =>
    (createSummary s newId createdAt text emb).1
  | .createInsight newId createdAt text emb =>
    (createInsight s newId createdAt text emb).1
  | .linkDetailToSummary did sid => linkDetailToSummary s did sid
  | .linkDetailToInsight did iid => linkDetailToInsight s did iid
  | .linkInsightToTopic iid tid => linkInsightToTopic s iid tid
  | .linkSummaryToCluster sid cl cid ts => linkSummaryToCluster s sid cl cid ts
  | .markDetailInsightProcessed did ts => markDetailInsightProcessed s did ts
  | .updateInsightText iid txt => updateInsightText s iid txt
  | .updateTopicText tid txt => updateTopicText s tid txt

/-- A sequence of operations applied left to right. -/
def applyOps (s : GraphState) (ops : List StoreOp) : GraphState :=
  ops.foldl applyOp s

/-- Freshness of the UUIDs an operation creates Detail nodes with: `uuid4().hex`
never collides with an existing detail id. Other operations need nothing. -/
def opWF (s : GraphState) : StoreOp → Bool
  | .createDetail newId _ _ _ _ => s.details.all (fun d => !(d.id == newId))
  | .insertClusterSummaryDetail _ _ _ _ _ _ did _ =>
    s.details.all (fun d => !(d.id == did))
  | _ => true

/-- Freshness along a whole trajectory. -/
def wfOps : GraphState → List StoreOp → Bool
  | _, [] => true
  | s, op :: rest => opWF s op && wfOps (applyOp s op) rest

/-- The effective `insight_pending` flag the queries observe for the first
Detail with a given id: `coalesce(insight_pending, true)`. -/
def pendingFlag (s : GraphState) (did : String) : Option Bool :=
  (s.details.find? (fun d => d.id == did)).map
    (fun d => d.insight_pending.getD true)

/-! ## Insight consolidation batch loop (`generate_insights`, insights.py
lines 204-240)

The per-detail work between `get_detail_context` and the end of `agent.run`
is abstracted as a state transformer `process` that may fail; on any outcome
the loop calls the `mark_detail_processed` tool (resolve, then mark) before
moving on. -/

/-- The batch report `{processed, errors, details}` (insights.py line 204);
each log entry keeps the detail id and the error text if any. -/
structure BatchSummary where
  processed : Nat
  errors : Nat
  log : List (String × Option String)
deriving DecidableEq, Repr

/-- The `mark_detail_processed` tool (insights.py lines 174-188): resolve the
reference; if it resolves, mark; otherwise report-not-found without writing. -/
def markDetailProcessedTool (s : GraphState) (ref processedAt : String) :
    GraphState :=
  match resolveDetailId s ref with
  | none => s
  | some rid => markDetailInsightProcessed s rid processedAt

/-- One iteration of the batch loop (insights.py lines 206-238): skip rows
with a falsy id; otherwise run the per-detail work and, success or exception,
mark the detail processed before counting it. -/
def generateInsightsStep
    (process : String → GraphState → GraphState × Except String String)
    (now : String) (acc : GraphState × BatchSummary) (item : PendingRow) :
    GraphState × BatchSummary :=
  if item.id == "" then acc
  else
    match process item.id acc.1 with
    | (st1, Except.ok _) =>
      (markDetailProcessedTool st1 item.id now,
        { acc.2 with
            processed := acc.2.processed + 1
            log := acc.2.log ++ [(item.id, none)] })
    | (st1, Except.error e) =>
      (markDetailProcessedTool st1 item.id now,
        { acc.2 with
            errors := acc.2.errors + 1
            log := acc.2.log ++ [(item.id, some e)] })

/-- `generate_insights` (insights.py lines 204-240): fold the batch loop over
the pending details. -/
def generateInsights
    (process : String → GraphState → GraphState × Except String String)
    (now : String) (s : GraphState) (limit : Nat) :
    GraphState × BatchSummary :=
  (listPendingDetails s limit).foldl (generateInsightsStep process now)
    (s, { processed := 0, errors := 0, log := [] })

/-- What any run of the consolidation tools preserves about Details: the
per-detail processing only creates/updates Insights and edges and marks
details processed, so the `(id, text)` list of Details is unchanged and a
cleared `insight_pending` flag is never reverted. -/
def DetailStable (s s' : GraphState) : Prop :=
  s'.details.map (fun d => (d.id, d.text)) = s.details.map (fun d => (d.id, d.text))
    ∧ ∀ did, pendingFlag s did = some false → pendingFlag s' did = some false

/-- Concrete nodes used by witnesses and counterexamples. -/
def sampleDomain : DomainNode :=
  { id := "dom1", label := "Food spots", created_at := "t0" }

def sampleTopic : TopicNode :=
  { id := "top1", text := "favourite food places", created_at := "t0", embedding := some [1] }

def sampleDetail : DetailNode :=
  { id := "det1", text := "likes the corner cafe food", source := "agent", created_at := "t0", embedding := some [1], insight_pending := some true }

def sampleInsight : InsightNode :=
  { id := "ins1", text := "enjoys cafes", created_at := "t0" }

/-- An example state used by concrete witnesses: one Domain, one Topic with an
embedding, one linked pending Detail with an embedding, and one Insight
attached to the Topic. -/
def sampleState : GraphState :=
  { domains := [sampleDomain]
    topics := [sampleTopic]
    details := [sampleDetail]
    insights := [sampleInsight]
    hasTopic := [("dom1", "top1")]
    hasDetail := [("top1", "det1")]
    hasInsight := [("top1", "ins1")] }

/-! # Theorems -/

/-- Claim C7: `cosine_similarity` is total and returns exactly 0 on a
zero-length vector or a vector of zero norm (`sumSq v = 0`, i.e. the numpy
norm is zero), so no division by zero ever occurs. -/
theorem cosine_similarity_zero_safe (a b : List ℚ)
    (h : a.length = 0 ∨ b.length = 0 ∨ sumSq a = 0 ∨ sumSq b = 0) :
    cosine_similarity a b = 0 := by
  by_cases hl : a.length = 0 ∨ b.length = 0
  · rw [cosine_similarity, if_pos hl]
  · rcases h with h | h | h | h
    · exact absurd (Or.inl h) hl
    · exact absurd (Or.inr h) hl
    · have hs : Real.sqrt ((sumSq a : ℚ) : ℝ) = 0 := by
        rw [h]; simp
      rw [cosine_similarity, if_neg hl, if_pos (by rw [hs, zero_mul])]
    · have hs : Real.sqrt ((sumSq b : ℚ) : ℝ) = 0 := by
        rw [h]; simp
      rw [cosine_similarity, if_neg hl, if_pos (by rw [hs, mul_zero])]

/-- Witness for C7: a zero vector of positive length has zero sum of squares
and cosine similarity exactly 0. -/
theorem cosine_similarity_zero_safe_witness :
    sumSq [0, 0] = 0 ∧ cosine_similarity [0, 0] [1] = 0 :=
  ⟨by norm_num [sumSq],
    cosine_similarity_zero_safe [0, 0] [1]
      (Or.inr (Or.inr (Or.inl (by norm_num [sumSq]))))⟩

/-- Claim C6: creating a Domain twice with the same (already normalized)
label yields exactly one Domain node with that label; the second call changes
nothing and returns the first call's `id` and `created_at`. -/
theorem createDomain_merge_unique (s : GraphState) (label id1 t1 id2 t2 : String)
    (h : ∀ c ∈ s.domains, c.label ≠ label) :
    ((createDomain (createDomain s id1 t1 label).1 id2 t2 label).1.domains.filter
        (fun c => c.label == label)).length = 1
    ∧ (createDomain (createDomain s id1 t1 label).1 id2 t2 label).1
        = (createDomain s id1 t1 label).1
    ∧ (createDomain (createDomain s id1 t1 label).1 id2 t2 label).2
        = (createDomain s id1 t1 label).2
    ∧ lookupProp (createDomain (createDomain s id1 t1 label).1 id2 t2 label).2 "id"
        = some (Value.str id1)
    ∧ lookupProp (createDomain (createDomain s id1 t1 label).1 id2 t2 label).2
        "created_at" = some (Value.str t1) := by
  have hfind : s.domains.find? (fun c => c.label == label) = none := by
    rw [List.find?_eq_none]
    intro c hc
    simpa using h c hc
  have hnil : s.domains.filter (fun c => c.label == label) = [] := by
    rw [List.filter_eq_nil_iff]
    intro c hc
    simpa using h c hc
  set c1 : DomainNode := { id := id1, label := label, created_at := t1 } with hc1
  have h1 : createDomain s id1 t1 label
      = ({ s with domains := s.domains ++ [c1] }, c1.props) := by
    rw [createDomain, hfind]
  have hfind2 : (s.domains ++ [c1]).find? (fun c => c.label == label) = some c1 := by
    rw [List.find?_append, hfind]
    simp [hc1]
  have h2 : createDomain ({ s with domains := s.domains ++ [c1] } : GraphState)
      id2 t2 label = ({ s with domains := s.domains ++ [c1] }, c1.props) := by
    rw [createDomain]
    simp only
    rw [hfind2]
  rw [h1, h2]
  refine ⟨?_, rfl, rfl, ?_, ?_⟩
  · simp [List.filter_append, hnil, hc1]
  · simp [DomainNode.props, lookupProp]
  · simp [DomainNode.props, lookupProp]

/-- Witness for C6 at a concrete empty graph. -/
theorem createDomain_merge_unique_witness :
    (∀ c ∈ ({} : GraphState).domains, c.label ≠ "Food")
    ∧ lookupProp (createDomain (createDomain {} "u1" "t1" "Food").1
        "u2" "t2" "Food").2 "id" = some (Value.str "u1") :=
  ⟨by intro c hc; simp at hc,
    (createDomain_merge_unique {} "Food" "u1" "t1" "u2" "t2"
      (by intro c hc; simp at hc)).2.2.2.1⟩

/-- Claim C10: a Detail lacking the `insight_pending` property is effectively
pending: `list_pending_details` returns it (within the limit), and the Details
created by `insert_cluster_summary_detail` are exactly of that shape (the flag
is never set there). -/
theorem missing_pending_flag_is_pending (s : GraphState) (d : DetailNode)
    (limit : Nat) (hd : d ∈ s.details) (hnone : d.insight_pending = none)
    (hlim : s.details.length ≤ limit) :
    d.insight_pending.getD true = true
    ∧ ({ id := d.id, text := d.text } : PendingRow) ∈ listPendingDetails s limit
    ∧ ∀ cl st dt src cid sid did ts,
        ((insertClusterSummaryDetail s cl st dt src cid sid did ts).2.2.2).insight_pending
          = none := by
  refine ⟨by rw [hnone]; rfl, ?_, ?_⟩
  · have hmem : d ∈ s.details.filter (fun d => d.insight_pending.getD true) := by
      rw [List.mem_filter]
      exact ⟨hd, by rw [hnone]; rfl⟩
    have htake :
        (s.details.filter (fun d => d.insight_pending.getD true)).take limit
          = s.details.filter (fun d => d.insight_pending.getD true) :=
      List.take_of_length_le (le_trans (List.length_filter_le _ _) hlim)
    rw [listPendingDetails, htake]
    exact List.mem_map.mpr ⟨d, hmem, rfl⟩
  · intro cl st dt src cid sid did ts
    rfl

/-- Witness for C10 at a concrete one-detail graph whose Detail lacks the
flag. -/
theorem missing_pending_flag_is_pending_witness :
    ({ id := "d0", text := "x" } : PendingRow) ∈ listPendingDetails
      ({ details := [{ id := "d0", text := "x", source := "s", created_at := "t" }] }
        : GraphState) 25 :=
  (missing_pending_flag_is_pending
    ({ details := [{ id := "d0", text := "x", source := "s", created_at := "t" }] }
      : GraphState)
    { id := "d0", text := "x", source := "s", created_at := "t" } 25
    (by simp) rfl (by simp)).2.1

/-- Claim C1: the retrying executor makes the initial call plus at most 3
retries; every retried attempt failed with a benign concurrent-schema race
message; before the (k+1)-th call it sleeps exactly `100·k` ms (linear
backoff); the outcome is that of the last call made; and an error returned
before the attempts are exhausted (fewer than 4 calls) is a non-benign
failure, propagated immediately without any retry. -/
theorem executeCypherWithRetry_spec {α : Type} (backend : Nat → Except String α) :
    ∃ res calls sleeps, executeCypherWithRetry backend = (res, calls, sleeps)
      ∧ 1 ≤ calls ∧ calls ≤ 4
      ∧ res = backend (calls - 1)
      ∧ sleeps = (List.range (calls - 1)).map (fun k => 100 * (k + 1))
      ∧ (∀ i, i + 1 < calls →
          ∃ m, backend i = Except.error m ∧ isBenignRaceMessage m = true)
      ∧ (∀ m, res = Except.error m → calls < 4 → isBenignRaceMessage m = false) := by
  rcases h0 : backend 0 with m0 | v0
  case ok =>
    refine ⟨Except.ok v0, 1, [], by simp [executeCypherWithRetry, retryGo, h0],
      le_refl 1, by omega, h0.symm, by simp, ?_, ?_⟩
    · intro i hi
      exact absurd hi (by omega)
    · intro m hm
      simp at hm
  case error =>
    rcases hb0 : isBenignRaceMessage m0 with _ | _
    case false =>
      refine ⟨Except.error m0, 1, [],
        by simp [executeCypherWithRetry, retryGo, h0, hb0], le_refl 1, by omega,
        h0.symm, by simp, ?_, ?_⟩
      · intro i hi
        exact absurd hi (by omega)
      · intro m hm _
        injection hm with h
        rw [← h]
        exact hb0
    case true =>
      rcases h1 : backend 1 with m1 | v1
      case ok =>
        refine ⟨Except.ok v1, 2, [100],
          by simp [executeCypherWithRetry, retryGo, h0, hb0, h1], by omega, by omega,
          h1.symm, by simp [List.range_succ], ?_, ?_⟩
        · intro i hi
          have : i = 0 := by omega
          exact this ▸ ⟨m0, h0, hb0⟩
        · intro m hm
          simp at hm
      case error =>
        rcases hb1 : isBenignRaceMessage m1 with _ | _
        case false =>
          refine ⟨Except.error m1, 2, [100],
            by simp [executeCypherWithRetry, retryGo, h0, hb0, h1, hb1], by omega,
            by omega, h1.symm, by simp [List.range_succ], ?_, ?_⟩
          · intro i hi
            have : i = 0 := by omega
            exact this ▸ ⟨m0, h0, hb0⟩
          · intro m hm _
            injection hm with h
            rw [← h]
            exact hb1
        case true =>
          rcases h2 : backend 2 with m2 | v2
          case ok =>
            refine ⟨Except.ok v2, 3, [100, 200],
              by simp [executeCypherWithRetry, retryGo, h0, hb0, h1, hb1, h2],
              by omega, by omega, h2.symm,
              by simp [List.range_succ], ?_, ?_⟩
            · intro i hi
              have : i = 0 ∨ i = 1 := by omega
              rcases this with h | h
              · exact h ▸ ⟨m0, h0, hb0⟩
              · exact h ▸ ⟨m1, h1, hb1⟩
            · intro m hm
              simp at hm
          case error =>
            rcases hb2 : isBenignRaceMessage m2 with _ | _
            case false =>
              refine ⟨Except.error m2, 3, [100, 200],
                by simp [executeCypherWithRetry, retryGo, h0, hb0, h1, hb1, h2, hb2],
                by omega, by omega, h2.symm, by simp [List.range_succ], ?_, ?_⟩
              · intro i hi
                have : i = 0 ∨ i = 1 := by omega
                rcases this with h | h
                · exact h ▸ ⟨m0, h0, hb0⟩
                · exact h ▸ ⟨m1, h1, hb1⟩
              · intro m hm _
                injection hm with h
                rw [← h]
                exact hb2
            case true =>
              refine ⟨backend 3, 4, [100, 200, 300],
                by simp [executeCypherWithRetry, retryGo, h0, hb0, h1, hb1, h2, hb2],
                by omega, by omega, rfl, by simp [List.range_succ], ?_, ?_⟩
              · intro i hi
                have : i = 0 ∨ i = 1 ∨ i = 2 := by omega
                rcases this with h | h | h
                · exact h ▸ ⟨m0, h0, hb0⟩
                · exact h ▸ ⟨m1, h1, hb1⟩
                · exact h ▸ ⟨m2, h2, hb2⟩
              · intro m _ hc
                exact absurd hc (by omega)

/-- Along the dedup fold, the seen-key set is exactly the lowercased output. -/
theorem dedup_fst_eq_map (terms : List String) :
    ∀ seen out : List String, seen = out.map (fun t => pyLower t) →
      (terms.foldl dedupFold (seen, out)).1
        = (terms.foldl dedupFold (seen, out)).2.map (fun t => pyLower t) := by
  induction terms with
  | nil =>
    intro seen out h
    simpa using h
  | cons term rest ih =>
    intro seen out h
    rw [List.foldl_cons]
    by_cases h1 : pyStrip term = ""
    · rw [show dedupFold (seen, out) term = (seen, out) by simp [dedupFold, h1]]
      exact ih seen out h
    · by_cases h2 : pyLower (pyStrip term) ∈ seen
      · rw [show dedupFold (seen, out) term = (seen, out) by
          simp [dedupFold, h1, h2]]
        exact ih seen out h
      · rw [show dedupFold (seen, out) term
            = (seen ++ [pyLower (pyStrip term)], out ++ [pyStrip term]) by
          simp [dedupFold, h1, h2]]
        exact ih _ _ (by simp [h])

/-- Keys already seen remain seen after the dedup fold. -/
theorem dedup_seen_mono (terms : List String) :
    ∀ seen out : List String, ∀ w, w ∈ seen →
      w ∈ (terms.foldl dedupFold (seen, out)).1 := by
  induction terms with
  | nil =>
    intro seen out w hw
    simpa using hw
  | cons term rest ih =>
    intro seen out w hw
    rw [List.foldl_cons]
    by_cases h1 : pyStrip term = ""
    · rw [show dedupFold (seen, out) term = (seen, out) by simp [dedupFold, h1]]
      exact ih seen out w hw
    · by_cases h2 : pyLower (pyStrip term) ∈ seen
      · rw [show dedupFold (seen, out) term = (seen, out) by
          simp [dedupFold, h1, h2]]
        exact ih seen out w hw
      · rw [show dedupFold (seen, out) term
            = (seen ++ [pyLower (pyStrip term)], out ++ [pyStrip term]) by
          simp [dedupFold, h1, h2]]
        exact ih _ _ w (List.mem_append_left _ hw)

/-- Every nonempty trimmed input term ends up as a seen key of the fold. -/
theorem dedup_key_complete (terms : List String) :
    ∀ seen out : List String, ∀ w,
      (∃ term ∈ terms, pyStrip term ≠ "" ∧ pyLower (pyStrip term) = w) →
      w ∈ (terms.foldl dedupFold (seen, out)).1 := by
  induction terms with
  | nil =>
    intro seen out w hw
    rcases hw with ⟨term, hmem, _⟩
    simp at hmem
  | cons term rest ih =>
    intro seen out w hw
    rw [List.foldl_cons]
    rcases hw with ⟨u, humem, hune, hulow⟩
    rcases List.mem_cons.mp humem with rfl | hin
    · by_cases h2 : pyLower (pyStrip u) ∈ seen
      · by_cases h1 : pyStrip u = ""
        · exact absurd h1 hune
        · rw [show dedupFold (seen, out) u = (seen, out) by
            simp [dedupFold, h1, h2]]
          exact dedup_seen_mono rest seen out w (hulow ▸ h2)
      · rw [show dedupFold (seen, out) u
            = (seen ++ [pyLower (pyStrip u)], out ++ [pyStrip u]) by
          simp [dedupFold, hune, h2]]
        exact dedup_seen_mono rest _ _ w
          (List.mem_append_right _ (by simp [hulow]))
    · exact ih _ _ w ⟨u, hin, hune, hulow⟩

/-- The dedup fold never records a seen key twice. -/
theorem dedup_seen_nodup (terms : List String) :
    ∀ seen out : List String, seen.Nodup →
      (terms.foldl dedupFold (seen, out)).1.Nodup := by
  induction terms with
  | nil =>
    intro seen out h
    simpa using h
  | cons term rest ih =>
    intro seen out h
    rw [List.foldl_cons]
    by_cases h1 : pyStrip term = ""
    · rw [show dedupFold (seen, out) term = (seen, out) by simp [dedupFold, h1]]
      exact ih seen out h
    · by_cases h2 : pyLower (pyStrip term) ∈ seen
      · rw [show dedupFold (seen, out) term = (seen, out) by
          simp [dedupFold, h1, h2]]
        exact ih seen out h
      · rw [show dedupFold (seen, out) term
            = (seen ++ [pyLower (pyStrip term)], out ++ [pyStrip term]) by
          simp [dedupFold, h1, h2]]
        exact ih _ _ (by simp [List.nodup_append, h, h2])

/-- The dedup fold's output extends the accumulator only with trimmed input
terms, in input order. -/
theorem dedup_sublist (terms : List String) :
    ∀ seen out : List String,
      List.Sublist (terms.foldl dedupFold (seen, out)).2
        (out ++ terms.map (fun t => pyStrip t)) := by
  induction terms with
  | nil =>
    intro seen out
    simp
  | cons term rest ih =>
    intro seen out
    rw [List.foldl_cons]
    by_cases h1 : pyStrip term = ""
    · rw [show dedupFold (seen, out) term = (seen, out) by simp [dedupFold, h1]]
      refine (ih seen out).trans ?_
      refine List.Sublist.append_left ?_ out
      simp
    · by_cases h2 : pyLower (pyStrip term) ∈ seen
      · rw [show dedupFold (seen, out) term = (seen, out) by
          simp [dedupFold, h1, h2]]
        refine (ih seen out).trans ?_
        refine List.Sublist.append_left ?_ out
        simp
      · rw [show dedupFold (seen, out) term
            = (seen ++ [pyLower (pyStrip term)], out ++ [pyStrip term]) by
          simp [dedupFold, h1, h2]]
        refine (ih _ _).trans ?_
        rw [List.map_cons, List.append_assoc]
        simp

/-- Claim C8: a query whose lowercased trimmed form mentions food, eat or
restaurant expands to a term list that contains (up to the case-insensitive
de-duplication key) every food-family synonym, has no two terms with the same
lowercase form, and preserves the original order of the expanded terms. -/
theorem expand_query_food_family (q : String)
    (h : foodTrigger (pyLower (pyStrip q)) = true) :
    (∀ w ∈ foodFamily, ∃ t ∈ expandQueryTerms q, pyLower t = w)
    ∧ ((expandQueryTerms q).map (fun t => pyLower t)).Nodup
    ∧ List.Sublist (expandQueryTerms q)
        ((rawQueryTerms q).map (fun t => pyStrip t)) := by
  have hbase : pyStrip q ≠ "" := by
    intro hq
    rw [hq] at h
    exact absurd h (by decide)
  have hexp : expandQueryTerms q = dedupCaseInsensitive (rawQueryTerms q) := by
    rw [expandQueryTerms]
    simp [hbase]
  have hinv := dedup_fst_eq_map (rawQueryTerms q) [] [] (by simp)
  refine ⟨?_, ?_, ?_⟩
  · intro w hw
    have hmemraw : w ∈ rawQueryTerms q := by
      rw [rawQueryTerms]
      simp only [h, if_true]
      exact List.mem_append_left _
        (List.mem_append_left _ (List.mem_append_right _ hw))
    have htrim : pyStrip w = w ∧ pyLower w = w ∧ w ≠ "" := by
      have hw' : w = "food" ∨ w = "eat" ∨ w = "restaurant" ∨ w = "cafe"
          ∨ w = "dinner" ∨ w = "lunch" ∨ w = "breakfast" := by
        simpa [foodFamily] using hw
      rcases hw' with h | h | h | h | h | h | h <;> subst h <;>
        exact ⟨by decide, by decide, by decide⟩
    have hkey : w ∈ ((rawQueryTerms q).foldl dedupFold ([], [])).1 :=
      dedup_key_complete (rawQueryTerms q) [] [] w
        ⟨w, hmemraw, by rw [htrim.1]; exact htrim.2.2, by
          rw [htrim.1, htrim.2.1]⟩
    rw [hinv] at hkey
    rcases List.mem_map.mp hkey with ⟨t, htmem, htlow⟩
    exact ⟨t, by rw [hexp]; exact htmem, htlow⟩
  · rw [hexp, dedupCaseInsensitive, ← hinv]
    exact dedup_seen_nodup (rawQueryTerms q) [] [] List.nodup_nil
  · rw [hexp, dedupCaseInsensitive]
    simpa using dedup_sublist (rawQueryTerms q) [] []

/-- Witness for C8: the scenario query "good restaurants" expands with the
food family present. -/
theorem expand_query_food_family_witness :
    foodTrigger (pyLower (pyStrip "good restaurants")) = true
    ∧ ∃ t ∈ expandQueryTerms "good restaurants", pyLower t = "cafe" :=
  ⟨by decide,
    (expand_query_food_family "good restaurants" (by decide)).1 "cafe"
      (by decide)⟩

/-- `pendingFlag` only looks at the detail list. -/
theorem pendingFlag_congr {s s' : GraphState} (h : s'.details = s.details)
    (did : String) : pendingFlag s' did = pendingFlag s did := by
  rw [pendingFlag, pendingFlag, h]

/-- Appending a detail never disturbs an already-false flag, and a flag that
is false after the append and not before can only belong to the new node. -/
theorem pendingFlag_append (l : List DetailNode) (d : DetailNode) (did : String) :
    ((l ++ [d]).find? (fun d => d.id == did))
      = ((l.find? (fun d => d.id == did)).or ([d].find? (fun d => d.id == did))) :=
  List.find?_append

/-- Single-step form of the pending-flag invariant: any operation preserves a
false flag, and an operation that turns the observed flag false is a mark of
that very detail id. -/
theorem applyOp_pending_step (s : GraphState) (op : StoreOp) (did : String) :
    (pendingFlag s did = some false → pendingFlag (applyOp s op) did = some false)
    ∧ (pendingFlag (applyOp s op) did = some false →
        pendingFlag s did ≠ some false →
        ∃ t, op = StoreOp.markDetailInsightProcessed did t) := by
  have happend :
      ∀ (d : DetailNode) (s' : GraphState), s'.details = s.details ++ [d] →
        (pendingFlag s did = some false → pendingFlag s' did = some false)
        ∧ (pendingFlag s' did = some false → pendingFlag s did ≠ some false →
            d.insight_pending.getD true = false) := by
    intro d s' hdet
    have hfind : s'.details.find? (fun x => x.id == did)
        = (s.details.find? (fun x => x.id == did)).or
            ([d].find? (fun x => x.id == did)) := by
      rw [hdet, List.find?_append]
    constructor
    · intro h
      rw [pendingFlag] at h ⊢
      rw [hfind]
      rcases hf : s.details.find? (fun x => x.id == did) with _ | d0
      · rw [hf] at h
        simp at h
      · rw [hf] at h
        rw [hf, show (some d0).or ([d].find? (fun x => x.id == did)) = some d0
          from rfl]
        exact h
    · intro h hne
      rw [pendingFlag] at h hne
      rw [hfind] at h
      rcases hf : s.details.find? (fun x => x.id == did) with _ | d0
      · rw [hf, Option.none_or] at h
        by_cases hpd : (d.id == did) = true
        · rw [@List.find?_cons_of_pos _ (fun x => x.id == did) d [] hpd] at h
          simpa using h
        · rw [@List.find?_cons_of_neg _ (fun x => x.id == did) d [] hpd,
            List.find?_nil] at h
          simp at h
      · rw [hf] at hne
        rw [hf, show (some d0).or ([d].find? (fun x => x.id == did)) = some d0
          from rfl] at h
        exact absurd h hne
  cases op with
  | createDetail newId createdAt text source emb =>
    have h := happend
      { id := newId, text := text, source := source, created_at := createdAt,
        embedding := emb, insight_pending := some true }
      (applyOp s (StoreOp.createDetail newId createdAt text source emb)) rfl
    refine ⟨h.1, fun hafter hbefore => Bool.noConfusion (h.2 hafter hbefore)⟩
  | insertClusterSummaryDetail cl st dt src cid sid ndid ts =>
    have h := happend
      { id := ndid, text := dt, source := src, created_at := ts }
      (applyOp s (StoreOp.insertClusterSummaryDetail cl st dt src cid sid ndid ts))
      rfl
    refine ⟨h.1, fun hafter hbefore => Bool.noConfusion (h.2 hafter hbefore)⟩
  | createDomain newId createdAt label =>
    have hdet : (applyOp s (StoreOp.createDomain newId createdAt label)).details
        = s.details := by
      rw [applyOp, createDomain]
      split <;> rfl
    rw [pendingFlag_congr hdet]
    exact ⟨id, fun h hne => absurd h hne⟩
  | createSummary newId createdAt text emb =>
    have hdet : (applyOp s (StoreOp.createSummary newId createdAt text emb)).details
        = s.details := by
      rw [applyOp, createSummary]
      split <;> rfl
    rw [pendingFlag_congr hdet]
    exact ⟨id, fun h hne => absurd h hne⟩
  | createInsight newId createdAt text emb =>
    rw [pendingFlag_congr (show (applyOp s (StoreOp.createInsight newId createdAt text emb)).details = s.details from rfl)]
    exact ⟨id, fun h hne => absurd h hne⟩
  | linkDetailToSummary a b =>
    have hdet : (applyOp s (StoreOp.linkDetailToSummary a b)).details = s.details := by
      rw [applyOp, linkDetailToSummary]
      split <;> rfl
    rw [pendingFlag_congr hdet]
    exact ⟨id, fun h hne => absurd h hne⟩
  | linkDetailToInsight a b =>
    have hdet : (applyOp s (StoreOp.linkDetailToInsight a b)).details = s.details := by
      rw [applyOp, linkDetailToInsight]
      split <;> rfl
    rw [pendingFlag_congr hdet]
    exact ⟨id, fun h hne => absurd h hne⟩
  | linkInsightToTopic a b =>
    have hdet : (applyOp s (StoreOp.linkInsightToTopic a b)).details = s.details := by
      rw [applyOp, linkInsightToTopic]
      split <;> rfl
    rw [pendingFlag_congr hdet]
    exact ⟨id, fun h hne => absurd h hne⟩
  | linkSummaryToCluster a b c dt =>
    have hdet : (applyOp s (StoreOp.linkSummaryToCluster a b c dt)).details
        = s.details := by
      rw [applyOp, linkSummaryToCluster]
      split <;> rfl
    rw [pendingFlag_congr hdet]
    exact ⟨id, fun h hne => absurd h hne⟩
  | updateInsightText a b =>
    rw [pendingFlag_congr (show (applyOp s (StoreOp.updateInsightText a b)).details = s.details from rfl)]
    exact ⟨id, fun h hne => absurd h hne⟩
  | updateTopicText a b =>
    rw [pendingFlag_congr (show (applyOp s (StoreOp.updateTopicText a b)).details = s.details from rfl)]
    exact ⟨id, fun h hne => absurd h hne⟩
  | markDetailInsightProcessed mdid ts =>
    have hmap : (applyOp s (StoreOp.markDetailInsightProcessed mdid ts)).details
        = s.details.map (fun d =>
            if d.id == mdid then
              { d with
                  insight_pending := some false
                  insight_processed_at := some ts }
            else d) := rfl
    have hid : ∀ d : DetailNode,
        ((fun d : DetailNode =>
          if d.id == mdid then
            { d with
                insight_pending := some false
                insight_processed_at := some ts }
          else d) d).id = d.id := by
      intro d
      by_cases h : d.id == mdid <;> simp [h]
    have hfind : (applyOp s (StoreOp.markDetailInsightProcessed mdid ts)).details.find?
          (fun d => d.id == did)
        = (s.details.find? (fun d => d.id == did)).map (fun d =>
            if d.id == mdid then
              { d with
                  insight_pending := some false
                  insight_processed_at := some ts }
            else d) := by
      rw [hmap, List.find?_map]
      have hcomp : ((fun d : DetailNode => d.id == did) ∘ (fun d : DetailNode =>
          if d.id == mdid then
            { d with
                insight_pending := some false
                insight_processed_at := some ts }
          else d)) = (fun d : DetailNode => d.id == did) := by
        funext d
        by_cases hm : (d.id == mdid) = true <;> simp [Function.comp, hm]
      rw [hcomp]
    constructor
    · intro h
      rw [pendingFlag] at h ⊢
      rw [hfind]
      rcases hf : s.details.find? (fun d => d.id == did) with _ | d0
      · rw [hf] at h
        simp at h
      · rw [hf] at h
        have hflag : d0.insight_pending.getD true = false := by
          simpa using h
        rw [hf]
        by_cases hm : (d0.id == mdid) = true
        · have hm2 : d0.id = mdid := eq_of_beq hm
          simp [hm, hm2]
        · have hm2 : ¬d0.id = mdid := fun he => hm (beq_iff_eq.mpr he)
          simp [hm, hm2, hflag]
    · intro h hne
      rw [pendingFlag] at h hne
      rw [hfind] at h
      rcases hf : s.details.find? (fun d => d.id == did) with _ | d0
      · rw [hf] at h
        simp at h
      · rw [hf] at h
        by_cases hm : (d0.id == mdid) = true
        · have h1 := List.find?_some hf
          have h2 : d0.id = did := eq_of_beq h1
          have h3 : d0.id = mdid := eq_of_beq hm
          have h4 : mdid = did := by rw [← h3, h2]
          exact ⟨ts, by rw [h4]⟩
        · have hm2 : ¬d0.id = mdid := fun he => hm (beq_iff_eq.mpr he)
          have hflag : d0.insight_pending.getD true = false := by
            simpa [hm2] using h
          exact absurd (by rw [hf]; simpa using hflag) hne

/-- Claim C5: along any well-formed operation sequence, a Detail's observed
`insight_pending` flag is `true` right after `create_detail` creates it, a
false flag is never reverted by any later operation, and the flag can turn
false only through `mark_detail_insight_processed` on that detail id. -/
theorem insight_pending_monotonic :
    (∀ (s : GraphState) (ops : List StoreOp) (did : String),
      pendingFlag s did = some false →
        pendingFlag (applyOps s ops) did = some false)
    ∧ (∀ (s : GraphState) (ops : List StoreOp) (did : String),
      pendingFlag (applyOps s ops) did = some false →
        pendingFlag s did ≠ some false →
        ∃ t, StoreOp.markDetailInsightProcessed did t ∈ ops)
    ∧ (∀ (s : GraphState) (newId createdAt text source : String)
        (emb : Option (List ℚ)),
      opWF s (StoreOp.createDetail newId createdAt text source emb) = true →
        pendingFlag (applyOp s (StoreOp.createDetail newId createdAt text source emb))
          newId = some true) := by
  refine ⟨?_, ?_, ?_⟩
  · intro s ops
    induction ops generalizing s with
    | nil =>
      intro did h
      exact h
    | cons op rest ih =>
      intro did h
      exact ih (applyOp s op) did ((applyOp_pending_step s op did).1 h)
  · intro s ops
    induction ops generalizing s with
    | nil =>
      intro did h hne
      exact absurd h hne
    | cons op rest ih =>
      intro did h hne
      by_cases hmid : pendingFlag (applyOp s op) did = some false
      · rcases (applyOp_pending_step s op did).2 hmid hne with ⟨t, ht⟩
        exact ⟨t, by rw [← ht]; exact List.mem_cons_self op rest⟩
      · rcases ih (applyOp s op) did (by simpa [applyOps] using h) hmid with ⟨t, ht⟩
        exact ⟨t, List.mem_cons_of_mem op ht⟩
  · intro s newId createdAt text source emb hwf
    have hfresh : s.details.find? (fun d => d.id == newId) = none := by
      rw [List.find?_eq_none]
      intro d hd
      have := List.all_eq_true.mp hwf d hd
      simpa using this
    rw [pendingFlag]
    have : (applyOp s (StoreOp.createDetail newId createdAt text source emb)).details
        = s.details ++ [{ id := newId, text := text, source := source, created_at := createdAt, embedding := emb, insight_pending := some true }] := by
      simp [applyOp, createDetail]
    rw [this, List.find?_append, hfresh]
    simp

/-- Witness for C5: a marked detail stays unpending across a later create. -/
theorem insight_pending_monotonic_witness :
    pendingFlag
      (applyOps
        ({ details := [{ id := "d1", text := "x", source := "s", created_at := "t", insight_pending := some false }] } : GraphState)
        [StoreOp.createDetail "d2" "t2" "y" "s" none])
      "d1" = some false :=
  insight_pending_monotonic.1
    ({ details := [{ id := "d1", text := "x", source := "s", created_at := "t", insight_pending := some false }] } : GraphState)
    [StoreOp.createDetail "d2" "t2" "y" "s" none] "d1" (by decide)

/-- `markFn` never changes a detail's id. -/
theorem markFn_id (mdid ts : String) (d : DetailNode) :
    (markFn mdid ts d).id = d.id := by
  rw [markFn]
  split <;> rfl

/-- `markFn` never changes a detail's text. -/
theorem markFn_text (mdid ts : String) (d : DetailNode) :
    (markFn mdid ts d).text = d.text := by
  rw [markFn]
  split <;> rfl

/-- `markFn` never reverts a false pending flag. -/
theorem markFn_flag (mdid ts : String) (d : DetailNode)
    (h : d.insight_pending.getD true = false) :
    (markFn mdid ts d).insight_pending.getD true = false := by
  rw [markFn]
  split
  · rfl
  · exact h

/-- Searching by id commutes with the mark map. -/
theorem find?_id_map_markFn (l : List DetailNode) (mdid ts did : String) :
    (l.map (markFn mdid ts)).find? (fun d => d.id == did)
      = (l.find? (fun d => d.id == did)).map (markFn mdid ts) := by
  rw [List.find?_map]
  have hcomp : ((fun d : DetailNode => d.id == did) ∘ markFn mdid ts)
      = (fun d : DetailNode => d.id == did) := by
    funext d
    simp [Function.comp, markFn_id]
  rw [hcomp]

/-- Marking preserves detail identity and never reverts a false flag. -/
theorem mark_detailStable (st : GraphState) (mdid ts : String) :
    DetailStable st (markDetailInsightProcessed st mdid ts) := by
  constructor
  · show (st.details.map (markFn mdid ts)).map (fun d => (d.id, d.text))
      = st.details.map (fun d => (d.id, d.text))
    rw [List.map_map]
    refine List.map_congr_left ?_
    intro d _
    show ((markFn mdid ts d).id, (markFn mdid ts d).text) = (d.id, d.text)
    rw [markFn_id, markFn_text]
  · intro did h
    rw [pendingFlag] at h ⊢
    show Option.map _ ((st.details.map (markFn mdid ts)).find? (fun d => d.id == did))
      = some false
    rw [find?_id_map_markFn]
    rcases hf : st.details.find? (fun d => d.id == did) with _ | d0
    · rw [hf] at h
      simp at h
    · rw [hf] at h
      rw [hf]
      have hflag : d0.insight_pending.getD true = false := by simpa using h
      simp [markFn_flag mdid ts d0 hflag]

/-- Marking an id that belongs to some detail makes the observed flag false. -/
theorem mark_sets_false (st : GraphState) (did ts : String)
    (hex : ∃ d ∈ st.details, d.id = did) :
    pendingFlag (markDetailInsightProcessed st did ts) did = some false := by
  rw [pendingFlag]
  show Option.map _ ((st.details.map (markFn did ts)).find? (fun d => d.id == did))
    = some false
  rw [find?_id_map_markFn]
  rcases hf : st.details.find? (fun d => d.id == did) with _ | d0
  · rcases hex with ⟨d, hd, hid⟩
    have := List.find?_eq_none.mp hf d hd
    simp [hid] at this
  · have h1 := List.find?_some hf
    have h2 : d0.id = did := eq_of_beq h1
    rw [hf]
    have hmark : markFn did ts d0 = { d0 with
        insight_pending := some false
        insight_processed_at := some ts } := by
      rw [markFn, if_pos (beq_iff_eq.mpr h2)]
    simp [hmark]

/-- When the reference is a detail id and no detail text equals it,
`resolve_detail_id` resolves to that very id. -/
theorem resolve_self (st : GraphState) (did : String)
    (hex : ∃ d ∈ st.details, d.id = did)
    (hnc : ∀ d ∈ st.details, d.text ≠ did) :
    resolveDetailId st did = some did := by
  rw [resolveDetailId]
  rcases hf : st.details.find? (fun d => d.id == did || d.text == did) with _ | d0
  · rcases hex with ⟨d, hd, hid⟩
    have := List.find?_eq_none.mp hf d hd
    simp [hid] at this
  · have hp := List.find?_some hf
    have hmem := List.mem_of_find?_eq_some hf
    have hd0 : d0.id = did := by
      rcases Bool.or_eq_true_iff.mp hp with h | h
      · exact eq_of_beq h
      · exact absurd (eq_of_beq h) (hnc d0 hmem)
    rw [hf]
    simp [hd0]

/-- The `mark_detail_processed` tool preserves detail identity and never
reverts a false flag. -/
theorem markTool_detailStable (st : GraphState) (ref ts : String) :
    DetailStable st (markDetailProcessedTool st ref ts) := by
  rw [markDetailProcessedTool]
  rcases resolveDetailId st ref with _ | rid
  · exact ⟨rfl, fun _ h => h⟩
  · exact mark_detailStable st rid ts

/-- Under the resolve hypotheses, the `mark_detail_processed` tool really
marks the given detail id. -/
theorem markTool_sets_false (st : GraphState) (did ts : String)
    (hex : ∃ d ∈ st.details, d.id = did)
    (hnc : ∀ d ∈ st.details, d.text ≠ did) :
    pendingFlag (markDetailProcessedTool st did ts) did = some false := by
  rw [markDetailProcessedTool, resolve_self st did hex hnc]
  exact mark_sets_false st did ts hex

/-- `DetailStable` is reflexive. -/
theorem detailStable_refl (st : GraphState) : DetailStable st st :=
  ⟨rfl, fun _ h => h⟩

/-- `DetailStable` is transitive. -/
theorem detailStable_trans {a b c : GraphState} (h1 : DetailStable a b)
    (h2 : DetailStable b c) : DetailStable a c :=
  ⟨h2.1.trans h1.1, fun did h => h2.2 did (h1.2 did h)⟩

/-- Detail ids transfer along `DetailStable`. -/
theorem detailStable_mem_id {a b : GraphState} (h : DetailStable a b)
    (x : String) (hex : ∃ d ∈ a.details, d.id = x) :
    ∃ d ∈ b.details, d.id = x := by
  have hids : b.details.map (fun d => d.id) = a.details.map (fun d => d.id) := by
    have := congrArg (List.map Prod.fst) h.1
    simpa [List.map_map, Function.comp] using this
  rcases hex with ⟨d, hd, hid⟩
  have : x ∈ b.details.map (fun d => d.id) := by
    rw [hids]
    exact List.mem_map.mpr ⟨d, hd, hid⟩
  rcases List.mem_map.mp this with ⟨d', hd', hid'⟩
  exact ⟨d', hd', hid'⟩

/-- Absence of a detail text transfers along `DetailStable`. -/
theorem detailStable_text_ne {a b : GraphState} (h : DetailStable a b)
    (x : String) (hnc : ∀ d ∈ a.details, d.text ≠ x) :
    ∀ d ∈ b.details, d.text ≠ x := by
  have htexts : b.details.map (fun d => d.text)
      = a.details.map (fun d => d.text) := by
    have := congrArg (List.map Prod.snd) h.1
    simpa [List.map_map, Function.comp] using this
  intro d hd hcontra
  have : d.text ∈ a.details.map (fun d => d.text) := by
    rw [← htexts]
    exact List.mem_map.mpr ⟨d, hd, rfl⟩
  rcases List.mem_map.mp this with ⟨d', hd', htext⟩
  exact hnc d' hd' (htext.trans hcontra)

/-- Inductive core of the consolidation batch loop: starting from any state
stable over the original one, the loop adds one to `processed + errors` per
row, only performs detail-stable transitions, and leaves every row's flag
false. -/
theorem generateInsights_go (s : GraphState)
    (process : String → GraphState → GraphState × Except String String)
    (now : String)
    (Hnc : ∀ d ∈ s.details, ∀ e ∈ s.details, d.text ≠ e.id)
    (Hp : ∀ ref st, DetailStable st (process ref st).1) :
    ∀ (rows : List PendingRow) (st : GraphState) (sum : BatchSummary),
      DetailStable s st →
      (∀ row ∈ rows, row.id ≠ "") →
      (∀ row ∈ rows, ∃ d ∈ s.details, d.id = row.id) →
      (rows.foldl (generateInsightsStep process now) (st, sum)).2.processed
          + (rows.foldl (generateInsightsStep process now) (st, sum)).2.errors
        = sum.processed + sum.errors + rows.length
      ∧ DetailStable st (rows.foldl (generateInsightsStep process now) (st, sum)).1
      ∧ ∀ row ∈ rows,
          pendingFlag (rows.foldl (generateInsightsStep process now) (st, sum)).1
            row.id = some false := by
  intro rows
  induction rows with
  | nil =>
    intro st sum _ _ _
    refine ⟨by simp, detailStable_refl st, ?_⟩
    intro row hrow
    simp at hrow
  | cons row rest ih =>
    intro st sum hstable hne hex
    have hrowne : row.id ≠ "" := hne row (List.mem_cons_self row rest)
    have hrowex : ∃ d ∈ s.details, d.id = row.id :=
      hex row (List.mem_cons_self row rest)
    have hbeq : (row.id == "") = false := by
      rcases hb : (row.id == "") with _ | _
      · rfl
      · exact absurd (eq_of_beq hb) hrowne
    rcases hproc : process row.id st with ⟨st1, res⟩
    have hst1 : DetailStable st st1 := by
      have := Hp row.id st
      rw [hproc] at this
      exact this
    have hsst1 : DetailStable s st1 := detailStable_trans hstable hst1
    have hex1 : ∃ d ∈ st1.details, d.id = row.id :=
      detailStable_mem_id hsst1 row.id hrowex
    have hnc1 : ∀ d ∈ st1.details, d.text ≠ row.id := by
      refine detailStable_text_ne hsst1 row.id ?_
      intro d hd
      rcases hrowex with ⟨e, he, hid⟩
      rw [← hid]
      exact Hnc d hd e he
    have hst2 : DetailStable st1 (markDetailProcessedTool st1 row.id now) :=
      markTool_detailStable st1 row.id now
    have hflag2 : pendingFlag (markDetailProcessedTool st1 row.id now) row.id
        = some false :=
      markTool_sets_false st1 row.id now hex1 hnc1
    rw [List.foldl_cons]
    have hrest_ne : ∀ r ∈ rest, r.id ≠ "" :=
      fun r hr => hne r (List.mem_cons_of_mem row hr)
    have hrest_ex : ∀ r ∈ rest, ∃ d ∈ s.details, d.id = r.id :=
      fun r hr => hex r (List.mem_cons_of_mem row hr)
    have hmid : DetailStable s (markDetailProcessedTool st1 row.id now) :=
      detailStable_trans hsst1 hst2
    rcases res with e | v
    · have hstep : generateInsightsStep process now (st, sum) row
          = (markDetailProcessedTool st1 row.id now,
            { sum with errors := sum.errors + 1, log := sum.log ++ [(row.id, some e)] }) := by
        rw [generateInsightsStep, hproc, hbeq]
        simp
      rw [hstep]
      rcases ih (markDetailProcessedTool st1 row.id now)
          { sum with errors := sum.errors + 1, log := sum.log ++ [(row.id, some e)] }
          hmid hrest_ne hrest_ex with ⟨ihc, ihs, ihf⟩
      refine ⟨?_, detailStable_trans (detailStable_trans hst1 hst2) ihs, ?_⟩
      · rw [ihc]
        simp
        omega
      · intro r hr
        rcases List.mem_cons.mp hr with rfl | hrest
        · exact ihs.2 r.id hflag2
        · exact ihf r hrest
    · have hstep : generateInsightsStep process now (st, sum) row
          = (markDetailProcessedTool st1 row.id now,
            { sum with processed := sum.processed + 1, log := sum.log ++ [(row.id, none)] }) := by
        rw [generateInsightsStep, hproc, hbeq]
        simp
      rw [hstep]
      rcases ih (markDetailProcessedTool st1 row.id now)
          { sum with processed := sum.processed + 1, log := sum.log ++ [(row.id, none)] }
          hmid hrest_ne hrest_ex with ⟨ihc, ihs, ihf⟩
      refine ⟨?_, detailStable_trans (detailStable_trans hst1 hst2) ihs, ?_⟩
      · rw [ihc]
        simp
        omega
      · intro r hr
        rcases List.mem_cons.mp hr with rfl | hrest
        · exact ihs.2 r.id hflag2
        · exact ihf r hrest

/-- Ids of pending rows exist among the state's details. -/
theorem listPendingDetails_mem (s : GraphState) (limit : Nat)
    (row : PendingRow) (hrow : row ∈ listPendingDetails s limit) :
    ∃ d ∈ s.details, d.id = row.id := by
  rw [listPendingDetails] at hrow
  rcases List.mem_map.mp hrow with ⟨d, hd, hmk⟩
  have hd1 : d ∈ s.details.filter (fun d => d.insight_pending.getD true) :=
    List.mem_of_mem_take hd
  exact ⟨d, (List.mem_filter.mp hd1).1, by rw [← hmk]⟩

/-- Claim C3: for any batch of N pending details (every one carrying the
nonempty uuid the store generates, with no detail text colliding with a
detail id, and per-detail processing that can only act through the exposed
consolidation tools — hence preserves detail identity and never reverts a
cleared flag), the loop marks all N details processed, on success and on
exception alike, and reports `processed + errors = N`. -/
theorem generate_insights_batch (s : GraphState)
    (process : String → GraphState → GraphState × Except String String)
    (now : String) (limit : Nat)
    (Hne : ∀ d ∈ s.details, d.id ≠ "")
    (Hnc : ∀ d ∈ s.details, ∀ e ∈ s.details, d.text ≠ e.id)
    (Hp : ∀ ref st, DetailStable st (process ref st).1) :
    (generateInsights process now s limit).2.processed
        + (generateInsights process now s limit).2.errors
      = (listPendingDetails s limit).length
    ∧ ∀ row ∈ listPendingDetails s limit,
        pendingFlag (generateInsights process now s limit).1 row.id
          = some false := by
  have hne : ∀ row ∈ listPendingDetails s limit, row.id ≠ "" := by
    intro row hrow
    rcases listPendingDetails_mem s limit row hrow with ⟨d, hd, hid⟩
    rw [← hid]
    exact Hne d hd
  rcases generateInsights_go s process now Hnc Hp (listPendingDetails s limit)
      s { processed := 0, errors := 0, log := [] } (detailStable_refl s) hne
      (fun row hrow => listPendingDetails_mem s limit row hrow) with ⟨hc, _, hf⟩
  exact ⟨by simpa using hc, hf⟩

/-- Witness for C3: a one-detail batch whose processing raises is still marked
and counted. -/
theorem generate_insights_batch_witness :
    (generateInsights (fun _ st => (st, Except.error "boom")) "t1"
        sampleState 25).2.processed
      + (generateInsights (fun _ st => (st, Except.error "boom")) "t1"
        sampleState 25).2.errors
      = (listPendingDetails sampleState 25).length :=
  (generate_insights_batch sampleState (fun _ st => (st, Except.error "boom"))
    "t1" 25 (by decide) (by decide)
    (fun _ st => detailStable_refl st)).1

/-- `addOnce` keeps label lists duplicate-free. -/
theorem addOnce_nodup (xs : List String) (x : String) (h : xs.Nodup) :
    (addOnce xs x).Nodup := by
  rw [addOnce]
  split
  · exact h
  · next hx => simp [List.nodup_append, h, hx]

/-- Membership through `addOnce`. -/
theorem addOnce_mem (xs : List String) (x y : String) :
    y ∈ addOnce xs x ↔ y ∈ xs ∨ y = x := by
  rw [addOnce]
  split
  · next hx =>
    constructor
    · exact Or.inl
    · rintro (h1 | rfl)
      · exact h1
      · exact hx
  · simp

/-- Folding `addOnce` keeps label lists duplicate-free. -/
theorem foldl_addOnce_nodup (ins : List String) :
    ∀ xs : List String, xs.Nodup → (ins.foldl addOnce xs).Nodup := by
  induction ins with
  | nil => exact fun xs h => h
  | cons i rest ih => exact fun xs h => ih (addOnce xs i) (addOnce_nodup xs i h)

/-- Membership through a fold of `addOnce`. -/
theorem foldl_addOnce_mem (ins : List String) :
    ∀ (xs : List String) (y : String),
      y ∈ ins.foldl addOnce xs ↔ y ∈ xs ∨ y ∈ ins := by
  induction ins with
  | nil =>
    intro xs y
    simp
  | cons i rest ih =>
    intro xs y
    rw [List.foldl_cons, ih (addOnce xs i) y]
    rw [addOnce_mem]
    constructor
    · rintro ((h | hy) | h)
      · exact Or.inl h
      · exact Or.inr (by rw [hy]; exact List.mem_cons_self i rest)
      · exact Or.inr (List.mem_cons_of_mem i h)
    · rintro (h | h)
      · exact Or.inl (Or.inl h)
      · rcases List.mem_cons.mp h with rfl | h
        · exact Or.inl (Or.inr rfl)
        · exact Or.inr h

/-- The update map of `bucketUpdate` does not change the key list. -/
theorem bucketUpdate_map_keys (k : String) (f : FormatBucket → FormatBucket)
    (acc : List (String × FormatBucket)) :
    ((acc.map (fun kv => if kv.1 == k then (kv.1, f kv.2) else kv)).map Prod.fst)
      = acc.map Prod.fst := by
  rw [List.map_map]
  refine List.map_congr_left ?_
  intro kv _
  show (if kv.1 == k then (kv.1, f kv.2) else kv).1 = kv.1
  split <;> rfl

/-- `bucketAdd` only adds the given (nonempty) labels. -/
theorem bucketAdd_mem (topic domain : String) (ins : List String)
    (b : FormatBucket) :
    (∀ x ∈ (bucketAdd topic domain ins b).topics,
      x ∈ b.topics ∨ (x = topic ∧ topic ≠ ""))
    ∧ (∀ x ∈ (bucketAdd topic domain ins b).domains,
      x ∈ b.domains ∨ (x = domain ∧ domain ≠ ""))
    ∧ (∀ x ∈ (bucketAdd topic domain ins b).insights,
      x ∈ b.insights ∨ x ∈ ins) := by
  refine ⟨?_, ?_, ?_⟩
  · intro x hx
    rw [bucketAdd] at hx
    simp only at hx
    split at hx
    · exact Or.inl hx
    · next hne =>
      rcases (addOnce_mem _ _ _).mp hx with h | rfl
      · exact Or.inl h
      · exact Or.inr ⟨rfl, by simpa using hne⟩
  · intro x hx
    rw [bucketAdd] at hx
    simp only at hx
    split at hx
    · exact Or.inl hx
    · next hne =>
      rcases (addOnce_mem _ _ _).mp hx with h | rfl
      · exact Or.inl h
      · exact Or.inr ⟨rfl, by simpa using hne⟩
  · intro x hx
    rw [bucketAdd] at hx
    simp only at hx
    rcases (foldl_addOnce_mem ins _ x).mp hx with h | h
    · exact Or.inl h
    · exact Or.inr h

/-- `bucketAdd` keeps label lists duplicate-free. -/
theorem bucketAdd_nodup (topic domain : String) (ins : List String)
    (b : FormatBucket) (h : b.topics.Nodup ∧ b.domains.Nodup ∧ b.insights.Nodup) :
    (bucketAdd topic domain ins b).topics.Nodup
    ∧ (bucketAdd topic domain ins b).domains.Nodup
    ∧ (bucketAdd topic domain ins b).insights.Nodup := by
  refine ⟨?_, ?_, ?_⟩
  · rw [bucketAdd]
    simp only
    split
    · exact h.1
    · exact addOnce_nodup _ _ h.1
  · rw [bucketAdd]
    simp only
    split
    · exact h.2.1
    · exact addOnce_nodup _ _ h.2.1
  · rw [bucketAdd]
    simp only
    exact foldl_addOnce_nodup ins _ h.2.2

/-- One `bucketUpdate` step preserves bucket-map well-formedness. -/
theorem bucketUpdate_wf (topic domain : String) (ins : List String)
    (acc : List (String × FormatBucket)) (ps : List (String × Value))
    (h : BucketsWF acc) : BucketsWF (bucketUpdate topic domain ins acc ps) := by
  rw [bucketUpdate]
  split
  · exact h
  · next hdt =>
    split
    · refine ⟨by rw [bucketUpdate_map_keys]; exact h.1, ?_⟩
      intro kb hkb
      rcases List.mem_map.mp hkb with ⟨kv, hkv, hfn⟩
      rw [← hfn]
      split
      · exact bucketAdd_nodup topic domain ins kv.2 (h.2 kv hkv)
      · exact h.2 kv hkv
    · next hnotin =>
      have hkeys : ((acc ++ [(detailTextOf ps, emptyBucket)]).map Prod.fst).Nodup := by
        have hni : detailTextOf ps ∉ acc.map Prod.fst := by
          intro hmem
          rcases List.mem_map.mp hmem with ⟨kv, hkv, hk⟩
          exact hnotin (List.any_eq_true.mpr ⟨kv, hkv, by simp [hk]⟩)
        simp [List.nodup_append, h.1, hni]
      refine ⟨by rw [bucketUpdate_map_keys]; exact hkeys, ?_⟩
      intro kb hkb
      rcases List.mem_map.mp hkb with ⟨kv, hkv, hfn⟩
      have hkv2 : kv.2.topics.Nodup ∧ kv.2.domains.Nodup ∧ kv.2.insights.Nodup := by
        rcases List.mem_append.mp hkv with hin | hin
        · exact h.2 kv hin
        · have : kv = (detailTextOf ps, emptyBucket) := by simpa using hin
          rw [this]
          exact ⟨List.nodup_nil, List.nodup_nil, List.nodup_nil⟩
      rw [← hfn]
      split
      · exact bucketAdd_nodup topic domain ins kv.2 hkv2
      · exact hkv2

/-- Labels found after one `bucketUpdate` step either were already in the
bucket for that key or come from the record being folded in. -/
theorem bucketUpdate_sound (topic domain : String) (ins : List String)
    (acc : List (String × FormatBucket)) (ps : List (String × Value))
    (k : String) (b' : FormatBucket)
    (hmem : (k, b') ∈ bucketUpdate topic domain ins acc ps) :
    (∀ x ∈ b'.topics,
      (∃ b, (k, b) ∈ acc ∧ x ∈ b.topics) ∨ (x = topic ∧ topic ≠ ""))
    ∧ (∀ x ∈ b'.domains,
      (∃ b, (k, b) ∈ acc ∧ x ∈ b.domains) ∨ (x = domain ∧ domain ≠ ""))
    ∧ (∀ x ∈ b'.insights,
      (∃ b, (k, b) ∈ acc ∧ x ∈ b.insights) ∨ x ∈ ins) := by
  rw [bucketUpdate] at hmem
  split at hmem
  · exact ⟨fun x hx => Or.inl ⟨b', hmem, hx⟩,
      fun x hx => Or.inl ⟨b', hmem, hx⟩,
      fun x hx => Or.inl ⟨b', hmem, hx⟩⟩
  · have haux : ∀ kv : String × FormatBucket,
        kv ∈ (if acc.any (fun kv => kv.1 == detailTextOf ps) then acc
          else acc ++ [(detailTextOf ps, emptyBucket)]) →
        kv ∈ acc ∨ kv = (detailTextOf ps, emptyBucket) := by
      intro kv hkv
      split at hkv
      · exact Or.inl hkv
      · rcases List.mem_append.mp hkv with hin | hin
        · exact Or.inl hin
        · exact Or.inr (by simpa using hin)
    rcases List.mem_map.mp hmem with ⟨kv, hkv, hfn⟩
    have hkv' := haux kv hkv
    rcases hsplit : (kv.1 == detailTextOf ps) with _ | _
    · rw [hsplit] at hfn
      simp only [Bool.false_eq_true, if_false] at hfn
      have hb : (k, b') ∈ acc ∨ (k, b') = (detailTextOf ps, emptyBucket) := by
        rw [hfn] at hkv'
        exact hkv'
      rcases hb with hb | hb
      · exact ⟨fun x hx => Or.inl ⟨b', hb, hx⟩,
          fun x hx => Or.inl ⟨b', hb, hx⟩,
          fun x hx => Or.inl ⟨b', hb, hx⟩⟩
      · have hb' : b' = emptyBucket := congrArg Prod.snd hb
        rw [hb']
        exact ⟨fun x hx => absurd hx (by simp [emptyBucket]),
          fun x hx => absurd hx (by simp [emptyBucket]),
          fun x hx => absurd hx (by simp [emptyBucket])⟩
    · rw [hsplit] at hfn
      simp only [if_true] at hfn
      have hk : kv.1 = k := congrArg Prod.fst hfn
      have hb' : b' = bucketAdd topic domain ins kv.2 :=
        (congrArg Prod.snd hfn).symm
      have hbase : kv.2.topics = kv.2.topics := rfl
      rcases hkv' with hin | hfresh
      · refine ⟨?_, ?_, ?_⟩
        · intro x hx
          rw [hb'] at hx
          rcases (bucketAdd_mem topic domain ins kv.2).1 x hx with h | h
          · exact Or.inl ⟨kv.2, by rw [← hk]; exact hin, h⟩
          · exact Or.inr h
        · intro x hx
          rw [hb'] at hx
          rcases (bucketAdd_mem topic domain ins kv.2).2.1 x hx with h | h
          · exact Or.inl ⟨kv.2, by rw [← hk]; exact hin, h⟩
          · exact Or.inr h
        · intro x hx
          rw [hb'] at hx
          rcases (bucketAdd_mem topic domain ins kv.2).2.2 x hx with h | h
          · exact Or.inl ⟨kv.2, by rw [← hk]; exact hin, h⟩
          · exact Or.inr h
      · have hkv2 : kv.2 = emptyBucket := congrArg Prod.snd hfresh
        refine ⟨?_, ?_, ?_⟩
        · intro x hx
          rw [hb'] at hx
          rcases (bucketAdd_mem topic domain ins kv.2).1 x hx with h | h
          · rw [hkv2] at h
            exact absurd h (by simp [emptyBucket])
          · exact Or.inr h
        · intro x hx
          rw [hb'] at hx
          rcases (bucketAdd_mem topic domain ins kv.2).2.1 x hx with h | h
          · rw [hkv2] at h
            exact absurd h (by simp [emptyBucket])
          · exact Or.inr h
        · intro x hx
          rw [hb'] at hx
          rcases (bucketAdd_mem topic domain ins kv.2).2.2 x hx with h | h
          · rw [hkv2] at h
            exact absurd h (by simp [emptyBucket])
          · exact Or.inr h

/-- Folding one record's details: labels found afterwards either were already
present for that key or are the record's own labels. -/
theorem foldl_bucketUpdate_sound (topic domain : String) (ins : List String) :
    ∀ (pss : List (List (String × Value))) (acc : List (String × FormatBucket))
      (k : String) (b' : FormatBucket),
      (k, b') ∈ pss.foldl (bucketUpdate topic domain ins) acc →
      (∀ x ∈ b'.topics,
        (∃ b, (k, b) ∈ acc ∧ x ∈ b.topics) ∨ (x = topic ∧ topic ≠ ""))
      ∧ (∀ x ∈ b'.domains,
        (∃ b, (k, b) ∈ acc ∧ x ∈ b.domains) ∨ (x = domain ∧ domain ≠ ""))
      ∧ (∀ x ∈ b'.insights,
        (∃ b, (k, b) ∈ acc ∧ x ∈ b.insights) ∨ x ∈ ins) := by
  intro pss
  induction pss with
  | nil =>
    intro acc k b' hmem
    exact ⟨fun x hx => Or.inl ⟨b', hmem, hx⟩,
      fun x hx => Or.inl ⟨b', hmem, hx⟩,
      fun x hx => Or.inl ⟨b', hmem, hx⟩⟩
  | cons ps rest ih =>
    intro acc k b' hmem
    rw [List.foldl_cons] at hmem
    rcases ih (bucketUpdate topic domain ins acc ps) k b' hmem with ⟨ht, hd, hi⟩
    refine ⟨?_, ?_, ?_⟩
    · intro x hx
      rcases ht x hx with ⟨b1, hb1, hxb1⟩ | h
      · rcases (bucketUpdate_sound topic domain ins acc ps k b1 hb1).1 x hxb1 with
          h | h
        · exact Or.inl h
        · exact Or.inr h
      · exact Or.inr h
    · intro x hx
      rcases hd x hx with ⟨b1, hb1, hxb1⟩ | h
      · rcases (bucketUpdate_sound topic domain ins acc ps k b1 hb1).2.1 x hxb1 with
          h | h
        · exact Or.inl h
        · exact Or.inr h
      · exact Or.inr h
    · intro x hx
      rcases hi x hx with ⟨b1, hb1, hxb1⟩ | h
      · rcases (bucketUpdate_sound topic domain ins acc ps k b1 hb1).2.2 x hxb1 with
          h | h
        · exact Or.inl h
        · exact Or.inr h
      · exact Or.inr h

/-- Folding records: every label in the final bucket map comes from one of the
folded records (or the starting accumulator). -/
theorem foldl_formatFoldItem_sound :
    ∀ (results : List MemoryItem) (acc : List (String × FormatBucket))
      (k : String) (b : FormatBucket),
      (k, b) ∈ results.foldl formatFoldItem acc →
      (∀ x ∈ b.topics, (∃ b0, (k, b0) ∈ acc ∧ x ∈ b0.topics)
        ∨ ∃ item ∈ results, x = itemTopicText item ∧ x ≠ "")
      ∧ (∀ x ∈ b.domains, (∃ b0, (k, b0) ∈ acc ∧ x ∈ b0.domains)
        ∨ ∃ item ∈ results, x = itemDomainText item ∧ x ≠ "")
      ∧ (∀ x ∈ b.insights, (∃ b0, (k, b0) ∈ acc ∧ x ∈ b0.insights)
        ∨ ∃ item ∈ results, x ∈ insightTexts item) := by
  intro results
  induction results with
  | nil =>
    intro acc k b hmem
    exact ⟨fun x hx => Or.inl ⟨b, hmem, hx⟩,
      fun x hx => Or.inl ⟨b, hmem, hx⟩,
      fun x hx => Or.inl ⟨b, hmem, hx⟩⟩
  | cons item rest ih =>
    intro acc k b hmem
    rw [List.foldl_cons] at hmem
    rcases ih (formatFoldItem acc item) k b hmem with ⟨ht, hd, hi⟩
    refine ⟨?_, ?_, ?_⟩
    · intro x hx
      rcases ht x hx with ⟨b1, hb1, hxb1⟩ | ⟨it, hit, hx2⟩
      · rcases (foldl_bucketUpdate_sound (itemTopicText item)
            (itemDomainText item) (insightTexts item) item.details acc k b1
            hb1).1 x hxb1 with h | ⟨hx2, hx3⟩
        · exact Or.inl h
        · exact Or.inr ⟨item, List.mem_cons_self item rest, hx2, hx2 ▸ hx3⟩
      · exact Or.inr ⟨it, List.mem_cons_of_mem item hit, hx2⟩
    · intro x hx
      rcases hd x hx with ⟨b1, hb1, hxb1⟩ | ⟨it, hit, hx2⟩
      · rcases (foldl_bucketUpdate_sound (itemTopicText item)
            (itemDomainText item) (insightTexts item) item.details acc k b1
            hb1).2.1 x hxb1 with h | ⟨hx2, hx3⟩
        · exact Or.inl h
        · exact Or.inr ⟨item, List.mem_cons_self item rest, hx2, hx2 ▸ hx3⟩
      · exact Or.inr ⟨it, List.mem_cons_of_mem item hit, hx2⟩
    · intro x hx
      rcases hi x hx with ⟨b1, hb1, hxb1⟩ | ⟨it, hit, hx2⟩
      · rcases (foldl_bucketUpdate_sound (itemTopicText item)
            (itemDomainText item) (insightTexts item) item.details acc k b1
            hb1).2.2 x hxb1 with h | h
        · exact Or.inl h
        · exact Or.inr ⟨item, List.mem_cons_self item rest, h⟩
      · exact Or.inr ⟨it, List.mem_cons_of_mem item hit, hx2⟩

/-- Folding records preserves bucket-map well-formedness. -/
theorem foldl_formatFoldItem_wf :
    ∀ (results : List MemoryItem) (acc : List (String × FormatBucket)),
      BucketsWF acc → BucketsWF (results.foldl formatFoldItem acc) := by
  intro results
  induction results with
  | nil => exact fun acc h => h
  | cons item rest ih =>
    intro acc h
    rw [List.foldl_cons]
    refine ih (formatFoldItem acc item) ?_
    rw [formatFoldItem]
    generalize item.details = pss
    induction pss generalizing acc with
    | nil => exact h
    | cons ps rest2 ih2 =>
      rw [List.foldl_cons]
      exact ih2 (bucketUpdate _ _ _ acc ps)
        (bucketUpdate_wf _ _ _ acc ps h)

/-- Two records sharing one detail text but with different topics coalesce
into a single bucket holding both topics; sorting then orders them. -/
theorem format_two_records (d t1 t2 : String)
    (hd : pyStrip d = d) (hdne : d ≠ "") (h1 : pyStrip t1 = t1)
    (h2 : pyStrip t2 = t2) (hne : t1 ≠ t2) (h1ne : t1 ≠ "") (h2ne : t2 ≠ "") :
    formatBuckets
        [⟨[], [("text", Value.str t1)], [[("text", Value.str d)]], []⟩,
          ⟨[], [("text", Value.str t2)], [[("text", Value.str d)]], []⟩]
      = [(d, ⟨[t1, t2], [], []⟩)]
    ∧ List.insertionSort strLE [t1, t2]
      = if t1 ≤ t2 then [t1, t2] else [t2, t1] := by
  constructor
  · have hne' : t2 ≠ t1 := Ne.symm hne
    have hps : pyStrip "" = "" := by decide
    simp only [formatBuckets, List.foldl_cons, List.foldl_nil, formatFoldItem,
      bucketUpdate, bucketAdd, addOnce, detailTextOf, itemTopicText,
      itemDomainText, textValueOf, insightTexts, lookupProp, emptyBucket,
      List.find?_cons_of_pos, List.find?_nil, List.map_nil, List.filter_nil]
    simp [hd, hdne, h1, h2, h1ne, h2ne, hne', hps]
  · by_cases hle : t1 ≤ t2
    · simp [List.insertionSort, List.orderedInsert, strLE, hle]
    · simp [List.insertionSort, List.orderedInsert, strLE, hle]

/-- Claim C9: `format_results` coalesces records sharing one detail text into
a single numbered block (the bucket keys are distinct detail texts); within a
block the topic, domain, and insight label lists are rendered deduplicated and
sorted alphabetically, and every label listed comes from a record associated
with that detail text; in particular two records with the same detail text but
different topics yield one bucket listing both topics, which sorting orders
alphabetically. -/
theorem format_results_blocks (results : List MemoryItem) :
    ((formatBuckets results).map Prod.fst).Nodup
    ∧ (∀ kb ∈ formatBuckets results,
        List.Sorted strLE (kb.2.topics.insertionSort strLE)
        ∧ (kb.2.topics.insertionSort strLE).Nodup
        ∧ List.Sorted strLE (kb.2.domains.insertionSort strLE)
        ∧ (kb.2.domains.insertionSort strLE).Nodup
        ∧ List.Sorted strLE (kb.2.insights.insertionSort strLE)
        ∧ (kb.2.insights.insertionSort strLE).Nodup
        ∧ (∀ x ∈ kb.2.topics, ∃ item ∈ results, x = itemTopicText item ∧ x ≠ "")
        ∧ (∀ x ∈ kb.2.domains, ∃ item ∈ results, x = itemDomainText item ∧ x ≠ "")
        ∧ (∀ x ∈ kb.2.insights, ∃ item ∈ results, x ∈ insightTexts item))
    ∧ (∀ d t1 t2 : String, pyStrip d = d → d ≠ "" → pyStrip t1 = t1 →
        pyStrip t2 = t2 → t1 ≠ t2 → t1 ≠ "" → t2 ≠ "" →
        formatBuckets
            [⟨[], [("text", Value.str t1)], [[("text", Value.str d)]], []⟩,
              ⟨[], [("text", Value.str t2)], [[("text", Value.str d)]], []⟩]
          = [(d, ⟨[t1, t2], [], []⟩)]
        ∧ List.insertionSort strLE [t1, t2]
          = if t1 ≤ t2 then [t1, t2] else [t2, t1]) := by
  have hwf : BucketsWF (formatBuckets results) :=
    foldl_formatFoldItem_wf results [] ⟨List.nodup_nil, by simp⟩
  refine ⟨hwf.1, ?_, ?_⟩
  · intro kb hkb
    have hnodups := hwf.2 kb hkb
    refine ⟨List.sorted_insertionSort strLE kb.2.topics,
      ((List.perm_insertionSort strLE kb.2.topics).nodup_iff).mpr hnodups.1,
      List.sorted_insertionSort strLE kb.2.domains,
      ((List.perm_insertionSort strLE kb.2.domains).nodup_iff).mpr hnodups.2.1,
      List.sorted_insertionSort strLE kb.2.insights,
      ((List.perm_insertionSort strLE kb.2.insights).nodup_iff).mpr hnodups.2.2,
      ?_, ?_, ?_⟩
    · intro x hx
      rcases (foldl_formatFoldItem_sound results [] kb.1 kb.2
          (by simpa using hkb)).1 x hx with ⟨b0, hb0, _⟩ | h
      · exact absurd hb0 (by simp)
      · rcases h with ⟨item, hitem, hx1, hx2⟩
        exact ⟨item, hitem, hx1, hx2⟩
    · intro x hx
      rcases (foldl_formatFoldItem_sound results [] kb.1 kb.2
          (by simpa using hkb)).2.1 x hx with ⟨b0, hb0, _⟩ | h
      · exact absurd hb0 (by simp)
      · rcases h with ⟨item, hitem, hx1, hx2⟩
        exact ⟨item, hitem, hx1, hx2⟩
    · intro x hx
      rcases (foldl_formatFoldItem_sound results [] kb.1 kb.2
          (by simpa using hkb)).2.2 x hx with ⟨b0, hb0, _⟩ | h
      · exact absurd hb0 (by simp)
      · exact h
  · intro d t1 t2 hd hdne h1 h2 hne h1ne h2ne
    exact format_two_records d t1 t2 hd hdne h1 h2 hne h1ne h2ne

/-- Witness for C9 at concrete strings: topics "b" and "a" coalesce under one
detail and sort to alphabetical order. -/
theorem format_results_blocks_witness :
    formatBuckets
        [⟨[], [("text", Value.str "b")], [[("text", Value.str "d")]], []⟩,
          ⟨[], [("text", Value.str "a")], [[("text", Value.str "d")]], []⟩]
      = [("d", ⟨["b", "a"], [], []⟩)]
    ∧ List.insertionSort strLE ["b", "a"]
      = if "b" ≤ "a" then ["b", "a"] else ["a", "b"] :=
  (format_results_blocks []).2.2 "d" "b" "a" (by decide) (by decide) (by decide)
    (by decide) (by decide) (by decide) (by decide)

/-- The scored survivor pairs are the survivor items paired with their
scores. -/
theorem survivors_eq (cos : List ℚ → List ℚ → ℚ) (qv : List ℚ) (minScore : ℚ)
    (candidates : List MemoryItem) :
    (candidates.map (fun i => (i, scoreItem cos qv i))).filter
        (fun p => decide (minScore ≤ p.2))
      = (candidates.filter (fun i => decide (minScore ≤ scoreItem cos qv i))).map
        (fun i => (i, scoreItem cos qv i)) := by
  rw [List.filter_map]
  rfl

/-- Claim C4 (amended): in the rerank stage of `retrieve_memory`, every output
record is a candidate whose best score reaches the minimum, at most `topK`
records are returned, output scores are non-increasing, tied records keep
their original candidate order (the output's tie class is a prefix of the
survivors' tie class), and whenever at most `topK` candidates reach the
threshold, a candidate appears in the output exactly when its best score
reaches the minimum. -/
theorem rank_candidates_spec (cos : List ℚ → List ℚ → ℚ) (qv : List ℚ)
    (minScore : ℚ) (topK : Nat) (candidates : List MemoryItem) :
    (∀ item ∈ rankCandidates cos qv minScore topK candidates,
      item ∈ candidates ∧ minScore ≤ scoreItem cos qv item)
    ∧ (rankCandidates cos qv minScore topK candidates).length ≤ topK
    ∧ List.Pairwise (fun a b => scoreItem cos qv b ≤ scoreItem cos qv a)
        (rankCandidates cos qv minScore topK candidates)
    ∧ (∀ c : ℚ, List.IsPrefix
        ((rankCandidates cos qv minScore topK candidates).filter
          (fun i => decide (scoreItem cos qv i = c)))
        ((candidates.filter (fun i => decide (minScore ≤ scoreItem cos qv i))).filter
          (fun i => decide (scoreItem cos qv i = c))))
    ∧ ((candidates.filter
          (fun i => decide (minScore ≤ scoreItem cos qv i))).length ≤ topK →
        ∀ item, item ∈ rankCandidates cos qv minScore topK candidates
          ↔ (item ∈ candidates ∧ minScore ≤ scoreItem cos qv item)) := by
  have hout : rankCandidates cos qv minScore topK candidates
      = ((((candidates.map (fun i => (i, scoreItem cos qv i))).filter
          (fun p => decide (minScore ≤ p.2))).insertionSort scoreGE).take
            topK).map Prod.fst := rfl
  have hperm :
      (((candidates.map (fun i => (i, scoreItem cos qv i))).filter
        (fun p => decide (minScore ≤ p.2))).insertionSort scoreGE).Perm
      ((candidates.map (fun i => (i, scoreItem cos qv i))).filter
        (fun p => decide (minScore ≤ p.2))) :=
    List.perm_insertionSort scoreGE _
  have hsnd : ∀ p ∈ (candidates.map (fun i => (i, scoreItem cos qv i))).filter
      (fun p => decide (minScore ≤ p.2)),
      p.2 = scoreItem cos qv p.1 ∧ p.1 ∈ candidates ∧ minScore ≤ p.2 := by
    intro p hp
    have h1 := (List.mem_filter.mp hp).1
    have h2 := of_decide_eq_true (List.mem_filter.mp hp).2
    rcases List.mem_map.mp h1 with ⟨i, hi, hpair⟩
    rw [← hpair]
    exact ⟨rfl, hi, by rw [← hpair] at h2; exact h2⟩
  have hmemsorted : ∀ p ∈ (((candidates.map (fun i => (i, scoreItem cos qv i))).filter
      (fun p => decide (minScore ≤ p.2))).insertionSort scoreGE).take topK,
      p.2 = scoreItem cos qv p.1 ∧ p.1 ∈ candidates ∧ minScore ≤ p.2 := by
    intro p hp
    exact hsnd p (hperm.mem_iff.mp (List.mem_of_mem_take hp))
  refine ⟨?_, ?_, ?_, ?_, ?_⟩
  · intro item hitem
    rw [hout] at hitem
    rcases List.mem_map.mp hitem with ⟨p, hp, hfst⟩
    rcases hmemsorted p hp with ⟨h2, h1, h3⟩
    rw [← hfst]
    exact ⟨h1, h2 ▸ h3⟩
  · rw [hout, List.length_map]
    exact List.length_take_le _ _
  · rw [hout, List.pairwise_map]
    have hsorted : List.Pairwise scoreGE
        (((candidates.map (fun i => (i, scoreItem cos qv i))).filter
          (fun p => decide (minScore ≤ p.2))).insertionSort scoreGE) :=
      List.sorted_insertionSort scoreGE _
    have htake := hsorted.sublist (List.take_sublist topK _)
    refine htake.imp_of_mem ?_
    intro a b ha hb hab
    have ha2 := (hmemsorted a ha).1
    have hb2 := (hmemsorted b hb).1
    rw [← ha2, ← hb2]
    exact hab
  · intro c
    have hdtiePW : List.Pairwise scoreGE
        (((candidates.map (fun i => (i, scoreItem cos qv i))).filter
          (fun p => decide (minScore ≤ p.2))).filter
            (fun p => decide (p.2 = c))) := by
      refine List.pairwise_of_forall_mem_list ?_
      intro a ha b hb
      have ha2 := of_decide_eq_true (List.mem_filter.mp ha).2
      have hb2 := of_decide_eq_true (List.mem_filter.mp hb).2
      show b.2 ≤ a.2
      rw [ha2, hb2]
    have hdtie_sub :
        (((candidates.map (fun i => (i, scoreItem cos qv i))).filter
          (fun p => decide (minScore ≤ p.2))).filter
            (fun p => decide (p.2 = c))).Sublist
        (((candidates.map (fun i => (i, scoreItem cos qv i))).filter
          (fun p => decide (minScore ≤ p.2))).insertionSort scoreGE) :=
      List.sublist_insertionSort hdtiePW (List.filter_sublist _)
    have hdtie_all : (((candidates.map (fun i => (i, scoreItem cos qv i))).filter
        (fun p => decide (minScore ≤ p.2))).filter
          (fun p => decide (p.2 = c))).filter (fun p => decide (p.2 = c))
        = ((candidates.map (fun i => (i, scoreItem cos qv i))).filter
          (fun p => decide (minScore ≤ p.2))).filter
            (fun p => decide (p.2 = c)) := by
      refine List.filter_eq_self.mpr ?_
      intro p hp
      exact (List.mem_filter.mp hp).2
    have hdtie_sub2 :
        (((candidates.map (fun i => (i, scoreItem cos qv i))).filter
          (fun p => decide (minScore ≤ p.2))).filter
            (fun p => decide (p.2 = c))).Sublist
        ((((candidates.map (fun i => (i, scoreItem cos qv i))).filter
          (fun p => decide (minScore ≤ p.2))).insertionSort scoreGE).filter
            (fun p => decide (p.2 = c))) := by
      have := List.Sublist.filter (fun p : MemoryItem × ℚ => decide (p.2 = c))
        hdtie_sub
      rw [hdtie_all] at this
      exact this
    have hdtie_perm :
        ((((candidates.map (fun i => (i, scoreItem cos qv i))).filter
          (fun p => decide (minScore ≤ p.2))).insertionSort scoreGE).filter
            (fun p => decide (p.2 = c))).Perm
        (((candidates.map (fun i => (i, scoreItem cos qv i))).filter
          (fun p => decide (minScore ≤ p.2))).filter
            (fun p => decide (p.2 = c))) :=
      hperm.filter _
    have hdtie_eq :
        (((candidates.map (fun i => (i, scoreItem cos qv i))).filter
          (fun p => decide (minScore ≤ p.2))).filter
            (fun p => decide (p.2 = c)))
        = ((((candidates.map (fun i => (i, scoreItem cos qv i))).filter
          (fun p => decide (minScore ≤ p.2))).insertionSort scoreGE).filter
            (fun p => decide (p.2 = c))) :=
      hdtie_sub2.eq_of_length hdtie_perm.symm.length_eq
    have hpfx :
        List.IsPrefix
          (((((candidates.map (fun i => (i, scoreItem cos qv i))).filter
            (fun p => decide (minScore ≤ p.2))).insertionSort scoreGE).take
              topK).filter (fun p => decide (p.2 = c)))
          ((((candidates.map (fun i => (i, scoreItem cos qv i))).filter
            (fun p => decide (minScore ≤ p.2))).insertionSort scoreGE).filter
              (fun p => decide (p.2 = c))) :=
      (List.take_prefix topK _).filter _
    have hmappfx := hpfx.map Prod.fst
    rw [← hdtie_eq] at hmappfx
    have hleft :
        (rankCandidates cos qv minScore topK candidates).filter
          (fun i => decide (scoreItem cos qv i = c))
        = (((((candidates.map (fun i => (i, scoreItem cos qv i))).filter
            (fun p => decide (minScore ≤ p.2))).insertionSort scoreGE).take
              topK).filter (fun p => decide (p.2 = c))).map Prod.fst := by
      rw [hout, List.filter_map]
      refine congrArg _ ?_
      refine List.filter_congr ?_
      intro p hp
      have h2 := (hmemsorted p hp).1
      show decide (scoreItem cos qv p.1 = c) = decide (p.2 = c)
      rw [h2]
    have hright :
        ((((candidates.map (fun i => (i, scoreItem cos qv i))).filter
          (fun p => decide (minScore ≤ p.2))).filter
            (fun p => decide (p.2 = c))).map Prod.fst)
        = ((candidates.filter
            (fun i => decide (minScore ≤ scoreItem cos qv i))).filter
              (fun i => decide (scoreItem cos qv i = c))) := by
      rw [survivors_eq, List.filter_map, List.map_map]
      rw [show (Prod.fst ∘ fun i : MemoryItem => (i, scoreItem cos qv i)) = id
        from rfl]
      rw [List.map_id]
      exact List.filter_congr (fun x _ => rfl)
    rw [hleft, ← hright]
    exact hmappfx
  · intro hlen item
    have hsurvlen :
        ((candidates.map (fun i => (i, scoreItem cos qv i))).filter
          (fun p => decide (minScore ≤ p.2))).length
        = (candidates.filter
            (fun i => decide (minScore ≤ scoreItem cos qv i))).length := by
      rw [survivors_eq, List.length_map]
    have htakeall :
        (((candidates.map (fun i => (i, scoreItem cos qv i))).filter
          (fun p => decide (minScore ≤ p.2))).insertionSort scoreGE).take topK
        = (((candidates.map (fun i => (i, scoreItem cos qv i))).filter
          (fun p => decide (minScore ≤ p.2))).insertionSort scoreGE) := by
      refine List.take_of_length_le ?_
      rw [hperm.length_eq, hsurvlen]
      exact hlen
    have hmemiff : item ∈ rankCandidates cos qv minScore topK candidates
        ↔ item ∈ (candidates.filter
            (fun i => decide (minScore ≤ scoreItem cos qv i))) := by
      rw [hout, htakeall]
      have hp2 : item ∈ ((((candidates.map (fun i => (i, scoreItem cos qv i))).filter
            (fun p => decide (minScore ≤ p.2))).insertionSort scoreGE).map Prod.fst)
          ↔ item ∈ (((candidates.map (fun i => (i, scoreItem cos qv i))).filter
            (fun p => decide (minScore ≤ p.2))).map Prod.fst) :=
        (hperm.map Prod.fst).mem_iff
      rw [hp2]
      rw [survivors_eq, List.map_map]
      rw [show Prod.fst ∘ (fun i : MemoryItem => (i, scoreItem cos qv i)) = id
        from rfl]
      rw [List.map_id]
    rw [hmemiff, List.mem_filter]
    constructor
    · rintro ⟨h1, h2⟩
      exact ⟨h1, of_decide_eq_true h2⟩
    · rintro ⟨h1, h2⟩
      exact ⟨h1, decide_eq_true h2⟩

/-- Counterexample to C4 as stated: with `topK = 1`, two candidates whose best
score (1, from identical unit embeddings) reaches the 0.35 threshold, the
second candidate scores above the minimum yet does not appear in the output —
the stated iff fails once the threshold survivors exceed `topK`. -/
theorem rank_threshold_counterexample :
    defaultMinScore ≤ scoreItem (fun _ _ => 1) [1]
        ⟨[], [("id", Value.str "t2"), ("embedding", Value.vec [1])], [], []⟩
    ∧ (⟨[], [("id", Value.str "t2"), ("embedding", Value.vec [1])], [], []⟩ : MemoryItem)
        ∈ ([⟨[], [("id", Value.str "t1"), ("embedding", Value.vec [1])], [], []⟩,
            ⟨[], [("id", Value.str "t2"), ("embedding", Value.vec [1])], [], []⟩]
          : List MemoryItem)
    ∧ (⟨[], [("id", Value.str "t2"), ("embedding", Value.vec [1])], [], []⟩ : MemoryItem)
        ∉ rankCandidates (fun _ _ => 1) [1] defaultMinScore 1
            [⟨[], [("id", Value.str "t1"), ("embedding", Value.vec [1])], [], []⟩,
              ⟨[], [("id", Value.str "t2"), ("embedding", Value.vec [1])], [], []⟩] := by
  decide

/-- Witness for C4 (amended): with survivors within `topK` the threshold iff
holds at a concrete input. -/
theorem rank_candidates_spec_witness :
    ((([⟨[], [("embedding", Value.vec [1])], [], []⟩] : List MemoryItem).filter
        (fun i => decide (defaultMinScore ≤ scoreItem (fun _ _ => 1) [1] i))).length
      ≤ 5)
    ∧ ((⟨[], [("embedding", Value.vec [1])], [], []⟩ : MemoryItem)
        ∈ rankCandidates (fun _ _ => 1) [1] defaultMinScore 5
            [⟨[], [("embedding", Value.vec [1])], [], []⟩]
      ↔ ((⟨[], [("embedding", Value.vec [1])], [], []⟩ : MemoryItem)
          ∈ ([⟨[], [("embedding", Value.vec [1])], [], []⟩] : List MemoryItem)
        ∧ defaultMinScore ≤ scoreItem (fun _ _ => 1) [1]
            ⟨[], [("embedding", Value.vec [1])], [], []⟩)) :=
  ⟨by decide,
    (rank_candidates_spec (fun _ _ => 1) [1] defaultMinScore 5
      [⟨[], [("embedding", Value.vec [1])], [], []⟩]).2.2.2.2 (by decide) _⟩

/-- `popKey` really removes the key. -/
theorem popKey_not_mem (ps : List (String × Value)) (k : String) :
    k ∉ (popKey ps k).map Prod.fst := by
  intro h
  rcases List.mem_map.mp h with ⟨kv, hkv, hfst⟩
  have hpred := (List.mem_filter.mp hkv).2
  rw [hfst] at hpred
  simp at hpred

/-- Every row of `GraphStore.retrieve` carries the full (unstripped) property
maps of a stored Domain and Topic. -/
theorem storeRetrieve_row_shape (s : GraphState) (q : String) :
    ∀ row ∈ storeRetrieve s q,
      (∃ c ∈ s.domains, row.cluster = c.props)
      ∧ ∃ t ∈ s.topics, row.summary = t.props := by
  have hgen : ∀ (edges : List (String × String)) (acc : List RetrieveRow),
      ∀ row ∈ edges.foldl (fun acc e =>
        match s.domains.find? (fun c => c.id == e.1),
            s.topics.find? (fun t => t.id == e.2) with
        | some c, some t =>
          acc ++ ((optionalDetails s t).filter
            (rowMatches (expandQueryTerms q) c t)).map
            (fun d =>
              { cluster := c.props
                summary := t.props
                detail := d.map (fun dn => dn.props) })
        | _, _ => acc) acc,
      row ∈ acc ∨ ((∃ c ∈ s.domains, row.cluster = c.props)
        ∧ ∃ t ∈ s.topics, row.summary = t.props) := by
    intro edges
    induction edges with
    | nil =>
      intro acc row hrow
      exact Or.inl hrow
    | cons e rest ih =>
      intro acc row hrow
      rw [List.foldl_cons] at hrow
      rcases ih _ row hrow with hin | hshape
      · rcases hfc : s.domains.find? (fun c => c.id == e.1) with _ | c
        · rw [hfc] at hin
          exact Or.inl hin
        · rcases hft : s.topics.find? (fun t => t.id == e.2) with _ | t
          · rw [hfc, hft] at hin
            exact Or.inl hin
          · rw [hfc, hft] at hin
            rcases List.mem_append.mp hin with hin | hin
            · exact Or.inl hin
            · rcases List.mem_map.mp hin with ⟨d, _, hrow_eq⟩
              refine Or.inr ⟨⟨c, List.mem_of_find?_eq_some hfc, ?_⟩,
                ⟨t, List.mem_of_find?_eq_some hft, ?_⟩⟩
              · rw [← hrow_eq]
              · rw [← hrow_eq]
      · exact Or.inr hshape
  intro row hrow
  rcases hgen s.hasTopic [] row hrow with hin | hshape
  · simp at hin
  · exact hshape

/-- Claim C2 (amended): the creation operations and `get_detail_context` pop
the `embedding` key from every record they return, but `GraphStore.retrieve`
returns raw `properties(...)` maps for topic and detail, so the records
`retrieve_memory` hands back retain their embedding fields. -/
theorem embedding_stripping (s : GraphState) :
    (∀ newId createdAt text source emb,
      "embedding" ∉ ((createDetail s newId createdAt text source emb).2.map
        Prod.fst))
    ∧ (∀ newId createdAt text emb,
      "embedding" ∉ ((createSummary s newId createdAt text emb).2.map Prod.fst))
    ∧ (∀ newId createdAt text emb,
      "embedding" ∉ ((createInsight s newId createdAt text emb).2.map Prod.fst))
    ∧ (∀ did ctx, getDetailContext s did = some ctx →
        "embedding" ∉ ctx.detail.map Prod.fst
        ∧ (∀ m ∈ ctx.topics, "embedding" ∉ m.map Prod.fst)
        ∧ (∀ m ∈ ctx.domains, "embedding" ∉ m.map Prod.fst))
    ∧ (∀ q, ∀ row ∈ storeRetrieve s q,
        (∃ c ∈ s.domains, row.cluster = c.props)
        ∧ ∃ t ∈ s.topics, row.summary = t.props) := by
  refine ⟨?_, ?_, ?_, ?_, ?_⟩
  · intro newId createdAt text source emb
    exact popKey_not_mem _ _
  · intro newId createdAt text emb
    rw [createSummary]
    split
    · exact popKey_not_mem _ _
    · exact popKey_not_mem _ _
  · intro newId createdAt text emb
    exact popKey_not_mem _ _
  · intro did ctx hctx
    rw [getDetailContext] at hctx
    rcases hf : s.details.find? (fun d => d.id == did) with _ | d
    · rw [hf] at hctx
      exact absurd hctx (by simp)
    · rw [hf] at hctx
      have hctx' := Option.some.inj hctx
      rw [← hctx']
      refine ⟨popKey_not_mem _ _, ?_, ?_⟩
      · intro m hm
        rcases List.mem_map.mp hm with ⟨t, _, hmm⟩
        rw [← hmm]
        exact popKey_not_mem _ _
      · intro m hm
        rcases List.mem_map.mp hm with ⟨c, _, hmm⟩
        rw [← hmm]
        exact popKey_not_mem _ _
  · intro q row hrow
    exact storeRetrieve_row_shape s q row hrow

/-- Counterexample to C2 as stated: at a concrete graph whose topic and detail
carry embedding vectors, `retrieve_memory` returns a record whose summary (and
detail) property maps still contain the `embedding` key. -/
theorem retrieve_memory_embedding_not_stripped :
    ∃ item ∈ retrieveMemory (fun _ _ => 1) (fun _ => [1]) sampleState "food" 5
        defaultMinScore,
      ("embedding", Value.vec [1]) ∈ item.summary
      ∧ ∃ ps ∈ item.details, ("embedding", Value.vec [1]) ∈ ps := by
  decide

/-- Witness for C2 (amended) at the sample graph: the raw retrieve row exposes
the stored topic's full property map. -/
theorem embedding_stripping_witness :
    ({ cluster := sampleDomain.props, summary := sampleTopic.props,
        detail := some sampleDetail.props } : RetrieveRow)
      ∈ storeRetrieve sampleState "food"
    ∧ ∃ t ∈ sampleState.topics,
        ({ cluster := sampleDomain.props, summary := sampleTopic.props,
            detail := some sampleDetail.props } : RetrieveRow).summary
          = t.props :=
  ⟨by decide,
    ((embedding_stripping sampleState).2.2.2.2 "food"
      { cluster := sampleDomain.props, summary := sampleTopic.props,
        detail := some sampleDetail.props } (by decide)).2⟩

end Rosemary
